import Mathlib

/-!
# Verification of the memorypack-go serialization engine

Shallow embedding of the `memorypack` Go package (files `const.go`,
`struct.go` and the reader file): the `Writer`/`Reader` byte codecs, the
reflective value walker (`writeValue` / `readValue`), the struct
serializer (`SerializeStruct` / `DeserializeStruct`), the field-schema
resolver (`createFormatterData`, including Go's `sort.Slice` pdqsort) and
the top-level `Serialize` / `Deserialize` entry points.

Conventions of the embedding:
* bytes are `Nat` values (< 256 whenever they come from the code);
* Go `int8/16/32/64` values are `Int`, with explicit two's-complement
  wrapping (`wrap`) where the code converts or truncates;
* Go `float32/float64` are represented by their IEEE bit patterns
  (`math.Float32bits` / `math.Float64bits` are the identity here, which is
  exactly how the code moves floats to and from the wire);
* Go strings are their UTF-8 byte sequences (`[]byte(s)` and `len(s)` in
  the code are byte based);
* fallible operations return their Go `error` next to the mutated
  receiver state, so error paths keep the observable cursor/depth state.
-/

namespace MemoryPack

/-- Little-endian byte decomposition of a natural number into `w` bytes
(the order `binary.LittleEndian.PutUintN` writes them). -/
def natToLE : Nat → Nat → List Nat
  | 0, _ => []
  | w + 1, v => v % 256 :: natToLE w (v / 256)

/-- Reassemble a little-endian byte list (the order
`binary.LittleEndian.UintN` reads them). -/
def leToNat : List Nat → Nat
  | [] => 0
  | b :: bs => b + 256 * leToNat bs

/-- Two's-complement wrap of an integer to a `bits`-wide unsigned pattern:
the effect of Go conversions such as `uint32(v)` / `byte(v)`. -/
def wrap (bits : Nat) (v : Int) : Nat := (v % ((2 : Int) ^ bits)).toNat

/-- Reinterpret a `bits`-wide unsigned pattern as a signed integer: the
effect of Go conversions such as `int32(u)` on a same-width unsigned. -/
def toSigned (bits : Nat) (u : Nat) : Int :=
  if u < 2 ^ (bits - 1) then (u : Int) else (u : Int) - 2 ^ bits

/-! ## Constants (`const.go`) -/

/-- `MaxDepth = 1000` -/
def MaxDepth : Nat := 1000

/-- `NullObject byte = 255` -/
def NullObject : Nat := 255

/-- `NullCollection int32 = -1` -/
def NullCollection : Int := -1

/-! ## Errors

The Go code reports errors via `fmt.Errorf`; we retain only their kind.
All "fewer bytes than requested" errors (`end of buffer`, and the
`read error: requested %d bytes ...` bounds failures of `ReadBytes` /
`ReadString`) are the spec's TruncatedInput and map to `endOfBuffer`.
`runtimePanic` marks places where the Go code would panic at runtime
rather than return an error (e.g. `reflect.MakeSlice` with a negative
length, `reflect.Value.Index` out of range). -/
inductive GoErr where
  | endOfBuffer
  | invalidLength
  | fieldCountMismatch
  | memberCountTooLarge
  | unsupported
  | depthExceeded
  | runtimePanic
deriving Repr, DecidableEq

/-! ## Reader (`NewReader`, `Read*` — the byte source) -/

/-- `Reader` holds the borrowed buffer and the read cursor. -/
structure Reader where
  buffer : List Nat
  pos : Nat
deriving Repr, DecidableEq

namespace Reader

/-- The bytes from the cursor on (`r.buffer[r.pos:]`). -/
def remaining (r : Reader) : List Nat := r.buffer.drop r.pos

/-- `binary.LittleEndian.UintN(r.buffer[r.pos:])` for `n` bytes. -/
def uintLE (r : Reader) (n : Nat) : Nat := leToNat ((r.buffer.drop r.pos).take n)

/-- `ReadByte` -/
def readByte (r : Reader) : Except GoErr Nat × Reader :=
  if r.pos < r.buffer.length then
    (.ok (r.buffer.getD r.pos 0), { r with pos := r.pos + 1 })
  else
    (.error .endOfBuffer, r)

/-- `Peek` -/
def peek (r : Reader) (n : Nat) : Except GoErr (List Nat) :=
  if r.pos + n ≤ r.buffer.length then
    .ok ((r.buffer.drop r.pos).take n)
  else
    .error .endOfBuffer

/-- `ReadInt16` -/
def readInt16 (r : Reader) : Except GoErr Int × Reader :=
  if r.pos + 2 ≤ r.buffer.length then
    (.ok (toSigned 16 (r.uintLE 2)), { r with pos := r.pos + 2 })
  else
    (.error .endOfBuffer, r)

/-- `ReadInt32` -/
def readInt32 (r : Reader) : Except GoErr Int × Reader :=
  if r.pos + 4 ≤ r.buffer.length then
    (.ok (toSigned 32 (r.uintLE 4)), { r with pos := r.pos + 4 })
  else
    (.error .endOfBuffer, r)

/-- `ReadInt64` -/
def readInt64 (r : Reader) : Except GoErr Int × Reader :=
  if r.pos + 8 ≤ r.buffer.length then
    (.ok (toSigned 64 (r.uintLE 8)), { r with pos := r.pos + 8 })
  else
    (.error .endOfBuffer, r)

/-- `ReadFloat32` — `math.Float32frombits` is represented by the bit
pattern itself. -/
def readFloat32 (r : Reader) : Except GoErr Nat × Reader :=
  if r.pos + 4 ≤ r.buffer.length then
    (.ok (r.uintLE 4), { r with pos := r.pos + 4 })
  else
    (.error .endOfBuffer, r)

/-- `ReadFloat64` — `math.Float64frombits` is represented by the bit
pattern itself. -/
def readFloat64 (r : Reader) : Except GoErr Nat × Reader :=
  if r.pos + 8 ≤ r.buffer.length then
    (.ok (r.uintLE 8), { r with pos := r.pos + 8 })
  else
    (.error .endOfBuffer, r)

/-- `ReadBool` -/
def readBool (r : Reader) : Except GoErr Bool × Reader :=
  match r.readByte with
  | (.error e, r1) => (.error e, r1)
  | (.ok b, r1) => (.ok (b ≠ 0), r1)

/-- `ReadBytes`: a 4-byte length, `-1` meaning nil, negative otherwise
invalid, then the raw bytes (bounds-checked). -/
def readBytes (r : Reader) : Except GoErr (Option (List Nat)) × Reader :=
  match r.readInt32 with
  | (.error e, r1) => (.error e, r1)
  | (.ok length, r1) =>
    if length = NullCollection then (.ok none, r1)
    else if length < 0 then (.error .invalidLength, r1)
    else if length.toNat > r1.buffer.length - r1.pos then (.error .endOfBuffer, r1)
    else (.ok (some ((r1.buffer.drop r1.pos).take length.toNat)),
          { r1 with pos := r1.pos + length.toNat })

/-- `ReadString`: a 4-byte header; any non-negative header yields the
empty string (the inner `NullCollection` comparison in the source is
unreachable there since `NullCollection` is negative); a negative header
is the complemented byte count, followed by a skipped 4-byte native
length and the raw UTF-8 bytes (bounds-checked). -/
def readString (r : Reader) : Except GoErr (List Nat) × Reader :=
  match r.readInt32 with
  | (.error e, r1) => (.error e, r1)
  | (.ok byteCount, r1) =>
    if 0 ≤ byteCount then
      (.ok [], r1)
    else
      -- actualByteCount := ^byteCount  (bitwise complement: -x-1)
      let actual : Int := -byteCount - 1
      match r1.readInt32 with
      | (.error e, r2) => (.error e, r2)
      | (.ok _, r2) =>
        if r2.pos + actual.toNat > r2.buffer.length then (.error .endOfBuffer, r2)
        else (.ok ((r2.buffer.drop r2.pos).take actual.toNat),
              { r2 with pos := r2.pos + actual.toNat })

/-- `ReadCollectionHeader`: the sentinel `-1` is a null collection, every
other value (negatives included) is passed through as the length. -/
def readCollectionHeader (r : Reader) : Except GoErr (Int × Bool) × Reader :=
  match r.readInt32 with
  | (.error e, r1) => (.error e, r1)
  | (.ok length, r1) =>
    if length = NullCollection then (.ok (0, true), r1)
    else (.ok (length, false), r1)

/-- `ReadObjectHeader`: byte `255` is a null object, every other byte
(`250`–`254` included) is passed through as the member count. -/
def readObjectHeader (r : Reader) : Except GoErr (Nat × Bool) × Reader :=
  match r.readByte with
  | (.error e, r1) => (.error e, r1)
  | (.ok header, r1) =>
    if header = NullObject then (.ok (0, true), r1)
    else (.ok (header, false), r1)

end Reader

/-! ## Writer (`NewWriter`, `Write*` — the byte sink)

The Go writer keeps a capacity-doubling backing array with a write
cursor; `GetBytes` returns `buffer[:pos]`. Capacity growth is not
observable in the produced bytes, so `buffer` here is directly the
written prefix. `depth` is the recursion counter of the depth guard. -/
structure Writer where
  buffer : List Nat
  depth : Nat
deriving Repr, DecidableEq

namespace Writer

/-- `NewWriter` (initial capacity does not affect observable state). -/
def new : Writer := { buffer := [], depth := 0 }

/-- `WriteByte` -/
def writeByte (w : Writer) (v : Nat) : Writer :=
  { w with buffer := w.buffer ++ [v] }

/-- `WriteInt16` -/
def writeInt16 (w : Writer) (v : Int) : Writer :=
  { w with buffer := w.buffer ++ natToLE 2 (wrap 16 v) }

/-- `WriteInt32` -/
def writeInt32 (w : Writer) (v : Int) : Writer :=
  { w with buffer := w.buffer ++ natToLE 4 (wrap 32 v) }

/-- `WriteInt64` -/
def writeInt64 (w : Writer) (v : Int) : Writer :=
  { w with buffer := w.buffer ++ natToLE 8 (wrap 64 v) }

/-- `WriteFloat32` — writes the `math.Float32bits` pattern. -/
def writeFloat32 (w : Writer) (bits : Nat) : Writer :=
  { w with buffer := w.buffer ++ natToLE 4 bits }

/-- `WriteFloat64` — writes the `math.Float64bits` pattern. -/
def writeFloat64 (w : Writer) (bits : Nat) : Writer :=
  { w with buffer := w.buffer ++ natToLE 8 bits }

/-- `WriteBool` -/
def writeBool (w : Writer) (v : Bool) : Writer :=
  if v then w.writeByte 1 else w.writeByte 0

/-- `WriteBytes`: nil writes the null-collection header; otherwise the
int32 length then the raw bytes. -/
def writeBytes (w : Writer) (v : Option (List Nat)) : Writer :=
  match v with
  | none => w.writeInt32 NullCollection
  | some b =>
    let w1 := w.writeInt32 (b.length : Int)
    { w1 with buffer := w1.buffer ++ b }

/-- `WriteString`: empty writes header `0`; otherwise
`^int32(utf8ByteCount)`, then `int32(len(v))` (in Go both counts are the
byte length), then the raw UTF-8 bytes. -/
def writeStr (w : Writer) (s : List Nat) : Writer :=
  if s = [] then
    w.writeInt32 0
  else
    -- ^int32(utf8ByteCount): convert to int32, then bitwise complement
    let c : Int := toSigned 32 (wrap 32 (s.length : Int))
    let w1 := (w.writeInt32 (-c - 1)).writeInt32 (s.length : Int)
    { w1 with buffer := w1.buffer ++ s }

/-- `WriteCollectionHeader` -/
def writeCollectionHeader (w : Writer) (length : Int) : Writer :=
  w.writeInt32 length

/-- `WriteNullCollectionHeader` -/
def writeNullCollectionHeader (w : Writer) : Writer :=
  w.writeInt32 NullCollection

/-- `WriteObjectHeader`: negative counts write the null object byte,
counts up to `249` write one byte, larger counts fail. -/
def writeObjectHeader (w : Writer) (memberCount : Int) : Option GoErr × Writer :=
  if memberCount < 0 then (none, w.writeByte NullObject)
  else if memberCount ≤ 249 then (none, w.writeByte (wrap 8 memberCount))
  else (some .memberCountTooLarge, w)

/-- `CheckDepth`: increment, then fail when the counter exceeds
`MaxDepth`. Both outcomes keep the incremented counter. -/
def checkDepth (w : Writer) : Option GoErr × Writer :=
  let w1 : Writer := { w with depth := w.depth + 1 }
  if MaxDepth < w1.depth then (some .depthExceeded, w1) else (none, w1)

/-- `EndCheckDepth` -/
def endCheckDepth (w : Writer) : Writer :=
  { w with depth := w.depth - 1 }

end Writer

/-! ## The value model

`Ty` is the shape information the walker extracts from `reflect.Type`:
the supported kinds of `writeValue` / `readValue`. A Go `[]byte` is the
dedicated `bytes` shape (the walker special-cases `reflect.Uint8`
elements); `int` and `int64` share the `int64` shape (the walker treats
them identically). A struct type stands for its resolved schema: the
ordered exported fields (`createFormatterData` excludes unexported
fields, so every schema field is settable on an addressable struct).

`Value` is a Go value of such a shape; `none` in `bytes`, `slice`, `map`
and `ptr` is Go `nil`. -/
inductive Ty where
  | bool
  | int8
  | int16
  | int32
  | int64
  | float32
  | float64
  | str
  | bytes
  | slice (elem : Ty)
  | array (n : Nat) (elem : Ty)
  | map (key val : Ty)
  | ptr (elem : Ty)
  | struct (fields : List Ty)
deriving Repr

inductive Value where
  | bool (b : Bool)
  | int8 (n : Int)
  | int16 (n : Int)
  | int32 (n : Int)
  | int64 (n : Int)
  | float32 (bits : Nat)
  | float64 (bits : Nat)
  | str (utf8 : List Nat)
  | bytes (data : Option (List Nat))
  | slice (elem : Ty) (elems : Option (List Value))
  | array (elem : Ty) (elems : List Value)
  | map (key val : Ty) (entries : Option (List (Value × Value)))
  | ptr (elem : Ty) (deref : Option Value)
  | struct (fields : List Value)
deriving Repr

mutual

def Ty.beq : Ty → Ty → Bool
  | .bool, .bool => true
  | .int8, .int8 => true
  | .int16, .int16 => true
  | .int32, .int32 => true
  | .int64, .int64 => true
  | .float32, .float32 => true
  | .float64, .float64 => true
  | .str, .str => true
  | .bytes, .bytes => true
  | .slice a, .slice b => Ty.beq a b
  | .array n a, .array m b => n == m && Ty.beq a b
  | .map k v, .map k2 v2 => Ty.beq k k2 && Ty.beq v v2
  | .ptr a, .ptr b => Ty.beq a b
  | .struct xs, .struct ys => Ty.beqList xs ys
  | _, _ => false

def Ty.beqList : List Ty → List Ty → Bool
  | [], [] => true
  | x :: xs, y :: ys => Ty.beq x y && Ty.beqList xs ys
  | _, _ => false

end

mutual

/-- The shape of a value (`reflect.TypeOf` restricted to the supported
kinds). -/
def tyOf : Value → Ty
  | .bool _ => .bool
  | .int8 _ => .int8
  | .int16 _ => .int16
  | .int32 _ => .int32
  | .int64 _ => .int64
  | .float32 _ => .float32
  | .float64 _ => .float64
  | .str _ => .str
  | .bytes _ => .bytes
  | .slice t _ => .slice t
  | .array t xs => .array xs.length t
  | .map k v _ => .map k v
  | .ptr t _ => .ptr t
  | .struct fs => .struct (tyListOf fs)

def tyListOf : List Value → List Ty
  | [] => []
  | v :: vs => tyOf v :: tyListOf vs

end

mutual

/-- The zero value of a shape (`reflect.Zero` / `reflect.New(...).Elem()`:
what a fresh deserialization target holds). -/
def zeroVal : Ty → Value
  | .bool => .bool false
  | .int8 => .int8 0
  | .int16 => .int16 0
  | .int32 => .int32 0
  | .int64 => .int64 0
  | .float32 => .float32 0
  | .float64 => .float64 0
  | .str => .str []
  | .bytes => .bytes none
  | .slice t => .slice t none
  | .array n t => .array t (List.replicate n (zeroVal t))
  | .map k v => .map k v none
  | .ptr t => .ptr t none
  | .struct ts => .struct (zeroList ts)

def zeroList : List Ty → List Value
  | [] => []
  | t :: ts => zeroVal t :: zeroList ts

end

/-! ## The write-side walker (`writeValue`, `SerializeStruct`, `Serialize`)

`writeValue` brackets its body with `CheckDepth` / deferred
`EndCheckDepth`; a failing `CheckDepth` returns before the `defer` is
installed, so only that exit path skips the decrement. Slices of
`reflect.Uint8` elements are the `bytes` shape here, so the walker's
`v.Type().Elem().Kind() == reflect.Uint8` test is resolved by the
constructor. -/

mutual

/-- `writeValue`: depth bracket around the kind switch. -/
def writeValue (w : Writer) (v : Value) : Option GoErr × Writer :=
  match w.checkDepth with
  | (some e, w1) => (some e, w1)
  | (none, w1) =>
    match writeBody w1 v with
    | (r, w2) => (r, w2.endCheckDepth)
termination_by (sizeOf v, 1)

/-- The kind switch of `writeValue`. -/
def writeBody (w : Writer) (v : Value) : Option GoErr × Writer :=
  match v with
  | .bool b => (none, w.writeBool b)
  | .int8 n => (none, w.writeByte (wrap 8 n))     -- WriteByte(byte(v.Int()))
  | .int16 n => (none, w.writeInt16 n)
  | .int32 n => (none, w.writeInt32 n)
  | .int64 n => (none, w.writeInt64 n)            -- reflect.Int and reflect.Int64
  | .float32 bits => (none, w.writeFloat32 bits)
  | .float64 bits => (none, w.writeFloat64 bits)
  | .str s => (none, w.writeStr s)
  | .bytes data => (none, w.writeBytes data)      -- []byte special treatment
  | .slice _ none => (none, w.writeNullCollectionHeader)
  | .slice _ (some xs) =>
    writeList (w.writeCollectionHeader (xs.length : Int)) xs
  | .array _ xs =>
    writeList (w.writeCollectionHeader (xs.length : Int)) xs
  | .map _ _ none => (none, w.writeNullCollectionHeader)
  | .map _ _ (some es) =>
    writeEntries (w.writeCollectionHeader (es.length : Int)) es
  | .ptr _ none => (none, w.writeByte NullObject)
  | .ptr _ (some e) => writeValue w e
  | .struct fields => serializeStruct w fields
termination_by (sizeOf v, 0)

/-- Element loop shared by the slice and array cases. -/
def writeList (w : Writer) (vs : List Value) : Option GoErr × Writer :=
  match vs with
  | [] => (none, w)
  | v :: rest =>
    match writeValue w v with
    | (some e, w1) => (some e, w1)
    | (none, w1) => writeList w1 rest
termination_by (sizeOf vs, 2)

/-- Entry loop of the map case: key then value per entry. -/
def writeEntries (w : Writer) (es : List (Value × Value)) : Option GoErr × Writer :=
  match es with
  | [] => (none, w)
  | (k, v) :: rest =>
    match writeValue w k with
    | (some e, w1) => (some e, w1)
    | (none, w1) =>
      match writeValue w1 v with
      | (some e, w2) => (some e, w2)
      | (none, w2) => writeEntries w2 rest
termination_by (sizeOf es, 2)

/-- `SerializeStruct` on the resolved schema fields: object header with
the field count, then each field through `writeValue`. -/
def serializeStruct (w : Writer) (fields : List Value) : Option GoErr × Writer :=
  match w.writeObjectHeader (fields.length : Int) with
  | (some e, w1) => (some e, w1)
  | (none, w1) => writeList w1 fields
termination_by (sizeOf fields, 3)

end

/-- `Serialize`: fresh writer; a non-nil pointer is unwrapped once; a nil
pointer writes the null-object byte; a (then-)struct value goes through
`SerializeStruct` directly (no depth bracket at the top), everything else
through `writeValue`. The `Formatter` branch is modeled separately
(`serializeWithFormatter`), since implementing `Formatter` is a type-level
property; plain values reach this function. -/
def serializeCore (v : Value) : Option GoErr × Writer :=
  let w := Writer.new
  match v with
  | .ptr _ none => (none, w.writeByte NullObject)
  | .ptr _ (some e) =>
    match e with
    | .struct fields => serializeStruct w fields
    | e => writeValue w e
  | .struct fields => serializeStruct w fields
  | v => writeValue w v

/-- `Serialize`'s observable result: the bytes, or the error. -/
def SerializeGo (v : Value) : Except GoErr (List Nat) :=
  match serializeCore v with
  | (some e, _) => .error e
  | (none, w) => .ok w.buffer

/-- `Serialize` on a value whose type implements `Formatter`: the custom
`Serialize(writer)` runs first, but the code then falls through to the
reflective path on the same writer (there is no early return in the
`Formatter` branch of `Serialize`, unlike in `Deserialize`). `fmtSer` is
the custom method. -/
def serializeWithFormatter (fmtSer : Writer → Option GoErr × Writer) (v : Value) :
    Except GoErr (List Nat) :=
  match fmtSer Writer.new with
  | (some e, _) => .error e   -- wrapped by fmt.Errorf("failed to serialize value: %w")
  | (none, w1) =>
    match v with
    | .ptr _ none => .ok (w1.writeByte NullObject).buffer
    | .ptr _ (some e) =>
      match (match e with
             | .struct fields => serializeStruct w1 fields
             | e => writeValue w1 e) with
      | (some err, _) => .error err
      | (none, w2) => .ok w2.buffer
    | .struct fields =>
      match serializeStruct w1 fields with
      | (some err, _) => .error err
      | (none, w2) => .ok w2.buffer
    | v =>
      match writeValue w1 v with
      | (some err, _) => .error err
      | (none, w2) => .ok w2.buffer

/-! ## The pure byte image of a value

`enc v` is the byte sequence `writeValue` appends for `v` when it
succeeds (proved below as `writeValue_ok_buffer`); it exists so that
statements about produced bytes do not have to thread writer state. -/

mutual

def enc : Value → List Nat
  | .bool b => [if b then 1 else 0]
  | .int8 n => [wrap 8 n]
  | .int16 n => natToLE 2 (wrap 16 n)
  | .int32 n => natToLE 4 (wrap 32 n)
  | .int64 n => natToLE 8 (wrap 64 n)
  | .float32 bits => natToLE 4 bits
  | .float64 bits => natToLE 8 bits
  | .str s =>
    if s = [] then natToLE 4 0
    else
      natToLE 4 (wrap 32 (-(toSigned 32 (wrap 32 (s.length : Int))) - 1)) ++
        natToLE 4 (wrap 32 (s.length : Int)) ++ s
  | .bytes none => natToLE 4 (wrap 32 NullCollection)
  | .bytes (some b) => natToLE 4 (wrap 32 (b.length : Int)) ++ b
  | .slice _ none => natToLE 4 (wrap 32 NullCollection)
  | .slice _ (some xs) => natToLE 4 (wrap 32 (xs.length : Int)) ++ encList xs
  | .array _ xs => natToLE 4 (wrap 32 (xs.length : Int)) ++ encList xs
  | .map _ _ none => natToLE 4 (wrap 32 NullCollection)
  | .map _ _ (some es) => natToLE 4 (wrap 32 (es.length : Int)) ++ encEntries es
  | .ptr _ none => [NullObject]
  | .ptr _ (some e) => enc e
  | .struct fields =>
    if fields.length ≤ 249 then wrap 8 (fields.length : Int) :: encList fields
    else []

def encList : List Value → List Nat
  | [] => []
  | v :: vs => enc v ++ encList vs

def encEntries : List (Value × Value) → List Nat
  | [] => []
  | (k, v) :: es => enc k ++ enc v ++ encEntries es

end

/-! ## Well-formed Go values

`wf` captures that a `Value` is one an actual Go program can hand to
`Serialize`, with the wire-representability side conditions under which
the round-trip analysis below is conducted: integer constructors carry
values of their Go width, float constructors carry genuine bit patterns,
byte lists hold bytes, collection/string lengths fit in the wire's
`int32`, collections are element-type homogeneous and pointers point to
values of their element type. The one condition that is NOT a Go
representation invariant is the pointer head-byte condition: a non-nil
pointer whose referent's encoding starts with the `0xFF` null marker is a
perfectly valid Go value on which the decoder misfires (see the C1/C5
counterexamples); `wf` excludes exactly those. -/

mutual

def wf : Value → Bool
  | .bool _ => true
  | .int8 n => decide (-128 ≤ n) && decide (n < 128)
  | .int16 n => decide (-32768 ≤ n) && decide (n < 32768)
  | .int32 n => decide (-2147483648 ≤ n) && decide (n < 2147483648)
  | .int64 n => decide (-9223372036854775808 ≤ n) && decide (n < 9223372036854775808)
  | .float32 bits => decide (bits < 4294967296)
  | .float64 bits => decide (bits < 18446744073709551616)
  | .str s => s.all (fun b => decide (b < 256)) && decide (s.length < 2147483648)
  | .bytes none => true
  | .bytes (some b) => b.all (fun x => decide (x < 256)) && decide (b.length < 2147483648)
  | .slice _ none => true
  | .slice t (some xs) => decide (xs.length < 2147483648) && wfAll t xs
  | .array t xs => decide (xs.length < 2147483648) && wfAll t xs
  | .map _ _ none => true
  | .map k v (some es) => decide (es.length < 2147483648) && wfPairs k v es
  | .ptr _ none => true
  | .ptr t (some e) =>
    Ty.beq (tyOf e) t && wf e && decide ((enc e).headD 0 ≠ NullObject)
  | .struct fs => decide (fs.length ≤ 249) && wfFields fs

def wfAll (t : Ty) : List Value → Bool
  | [] => true
  | v :: vs => Ty.beq (tyOf v) t && wf v && wfAll t vs

def wfPairs (k v : Ty) : List (Value × Value) → Bool
  | [] => true
  | (a, b) :: es =>
    Ty.beq (tyOf a) k && wf a && Ty.beq (tyOf b) v && wf b && wfPairs k v es

def wfFields : List Value → Bool
  | [] => true
  | v :: vs => wf v && wfFields vs

end

/-! ## The read-side walker (`readValue`, `DeserializeStruct`, `Deserialize`)

`readValue` in the source reads into a `reflect.Value` target. Every
target it is handed is freshly zeroed storage: `Deserialize` passes a new
variable's storage, `MakeSlice` / `reflect.New` produce zero elements,
and the pointer case allocates `reflect.New` before recursing (its target
is always nil here because the enclosing storage is zero). The embedding
therefore takes the target's shape `t` and returns the value stored into
it; current-storage contents that survive (the array null/short cases)
are reconstructed as `zeroVal`. Schema fields are exported, hence
settable, so the `CanSet` branch of `DeserializeStruct` is always taken
and `skipValue` is unreachable. -/

mutual

/-- `readValue` kind switch over the target shape. -/
def readValue (r : Reader) (t : Ty) : Except GoErr Value × Reader :=
  match t with
  | .bool =>
    match r.readBool with
    | (.error e, r1) => (.error e, r1)
    | (.ok b, r1) => (.ok (.bool b), r1)
  | .int8 =>
    -- val is the raw byte; SetInt(int64(val)) truncates into the int8 field
    match r.readByte with
    | (.error e, r1) => (.error e, r1)
    | (.ok val, r1) => (.ok (.int8 (toSigned 8 val)), r1)
  | .int16 =>
    match r.readInt16 with
    | (.error e, r1) => (.error e, r1)
    | (.ok val, r1) => (.ok (.int16 val), r1)
  | .int32 =>
    match r.readInt32 with
    | (.error e, r1) => (.error e, r1)
    | (.ok val, r1) => (.ok (.int32 val), r1)
  | .int64 =>
    match r.readInt64 with
    | (.error e, r1) => (.error e, r1)
    | (.ok val, r1) => (.ok (.int64 val), r1)
  | .float32 =>
    match r.readFloat32 with
    | (.error e, r1) => (.error e, r1)
    | (.ok bits, r1) => (.ok (.float32 bits), r1)
  | .float64 =>
    match r.readFloat64 with
    | (.error e, r1) => (.error e, r1)
    | (.ok bits, r1) => (.ok (.float64 bits), r1)
  | .str =>
    match r.readString with
    | (.error e, r1) => (.error e, r1)
    | (.ok s, r1) => (.ok (.str s), r1)
  | .bytes =>
    match r.readBytes with
    | (.error e, r1) => (.error e, r1)
    | (.ok data, r1) => (.ok (.bytes data), r1)
  | .slice elem =>
    match r.readCollectionHeader with
    | (.error e, r1) => (.error e, r1)
    | (.ok (_, true), r1) => (.ok (.slice elem none), r1)
    | (.ok (length, false), r1) =>
      -- reflect.MakeSlice(v.Type(), length, length) panics on negative length
      if length < 0 then (.error .runtimePanic, r1)
      else
        match readList r1 elem length.toNat with
        | (.error e, r2) => (.error e, r2)
        | (.ok vs, r2) => (.ok (.slice elem (some vs)), r2)
  | .array n elem =>
    match r.readCollectionHeader with
    | (.error e, r1) => (.error e, r1)
    | (.ok (_, true), r1) => (.ok (.array elem (List.replicate n (zeroVal elem))), r1)
    | (.ok (length, false), r1) =>
      -- for i := range length reads into v.Index(i): beyond the array
      -- bound, v.Index panics; a negative length runs zero iterations
      match readList r1 elem (min length.toNat n) with
      | (.error e, r2) => (.error e, r2)
      | (.ok vs, r2) =>
        if n < length then (.error .runtimePanic, r2)
        else (.ok (.array elem (vs ++ List.replicate (n - length.toNat) (zeroVal elem))), r2)
  | .map key val =>
    match r.readCollectionHeader with
    | (.error e, r1) => (.error e, r1)
    | (.ok (_, true), r1) => (.ok (.map key val none), r1)
    | (.ok (length, false), r1) =>
      -- reflect.MakeMapWithSize clamps a negative hint; the entry loop
      -- runs length times (zero times when negative)
      match readEntries r1 key val length.toNat with
      | (.error e, r2) => (.error e, r2)
      | (.ok es, r2) => (.ok (.map key val (some es)), r2)
  | .ptr elem =>
    match r.peek 1 with
    | .error e => (.error e, r)
    | .ok b =>
      if b.getD 0 0 = NullObject then
        match r.readByte with
        | (.error e, r1) => (.error e, r1)
        | (.ok _, r1) => (.ok (.ptr elem none), r1)
      else
        match readValue r elem with
        | (.error e, r1) => (.error e, r1)
        | (.ok v, r1) => (.ok (.ptr elem (some v)), r1)
  | .struct fields => deserializeStruct r fields
termination_by (sizeOf t, 0, 0)

/-- Element loop of the slice/array cases: `n` successive elements of
shape `t` into fresh zero storage. -/
def readList (r : Reader) (t : Ty) (n : Nat) : Except GoErr (List Value) × Reader :=
  match n with
  | 0 => (.ok [], r)
  | m + 1 =>
    match readValue r t with
    | (.error e, r1) => (.error e, r1)
    | (.ok v, r1) =>
      match readList r1 t m with
      | (.error e, r2) => (.error e, r2)
      | (.ok vs, r2) => (.ok (v :: vs), r2)
termination_by (sizeOf t, 1, n)

/-- Entry loop of the map case: key then value per entry, both into fresh
zero storage. -/
def readEntries (r : Reader) (key val : Ty) (n : Nat) : Except GoErr (List (Value × Value)) × Reader :=
  match n with
  | 0 => (.ok [], r)
  | m + 1 =>
    match readValue r key with
    | (.error e, r1) => (.error e, r1)
    | (.ok k, r1) =>
      match readValue r1 val with
      | (.error e, r2) => (.error e, r2)
      | (.ok v, r2) =>
        match readEntries r2 key val m with
        | (.error e, r3) => (.error e, r3)
        | (.ok es, r3) => (.ok ((k, v) :: es), r3)
termination_by (sizeOf key + sizeOf val, 1, n)
decreasing_by
  all_goals simp_wf
  all_goals simp only [Prod.lex_def, lt_self_iff_false, false_or, true_and, eq_self_iff_true]
  · have h2 : 1 ≤ sizeOf val := by cases val <;> simp_arith
    omega
  · have h1 : 1 ≤ sizeOf key := by cases key <;> simp_arith
    omega
  · omega

/-- `DeserializeStruct` on the resolved schema shapes: object header,
null returns the untouched (zero) struct, a count differing from the
schema's field count fails, else each field is read in schema order. -/
def deserializeStruct (r : Reader) (fields : List Ty) : Except GoErr Value × Reader :=
  match r.readObjectHeader with
  | (.error e, r1) => (.error e, r1)
  | (.ok (_, true), r1) => (.ok (.struct (zeroList fields)), r1)
  | (.ok (count, false), r1) =>
    if count = fields.length then
      match readFields r1 fields with
      | (.error e, r2) => (.error e, r2)
      | (.ok vs, r2) => (.ok (.struct vs), r2)
    else (.error .fieldCountMismatch, r1)
termination_by (sizeOf fields, 2, 0)

/-- Field loop of `DeserializeStruct` (every schema field is settable). -/
def readFields (r : Reader) (fields : List Ty) : Except GoErr (List Value) × Reader :=
  match fields with
  | [] => (.ok [], r)
  | t :: ts =>
    match readValue r t with
    | (.error e, r1) => (.error e, r1)
    | (.ok v, r1) =>
      match readFields r1 ts with
      | (.error e, r2) => (.error e, r2)
      | (.ok vs, r2) => (.ok (v :: vs), r2)
termination_by (sizeOf fields, 1, 0)

end

/-- `Deserialize(data, &out)`: fresh reader over `data`, target storage of
shape `t`; a struct target goes through `deserializeStruct`, everything
else through `readValue` — which is the same dispatch `readValue` itself
performs, so the observable result is `readValue` from position `0`. -/
def DeserializeGo (data : List Nat) (t : Ty) : Except GoErr Value :=
  (readValue { buffer := data, pos := 0 } t).1

/-- A chain of `k` nested non-nil pointers ending at `int8 0`: the
depth-guard stress value (each pointer dereference is one recursive
`writeValue` descent). -/
def nestPtr : Nat → Value
  | 0 => .int8 0
  | k + 1 => .ptr .int8 (some (nestPtr k))


/-! ## Field Schema Resolver (`createFormatterData`) and Go's `sort.Slice`

`createFormatterData` enumerates a struct type's fields, skips unexported
fields and fields tagged `memorypack:"-"`, takes the declared order from
the first comma-separated component of the `memorypack` tag when
`strconv.Atoi` parses it (otherwise the declaration index), and sorts by
`order` with `sort.Slice` — which is Go's pattern-defeating quicksort
(`pdqsort`, `sort/zsortfunc.go`), an UNSTABLE sort. The pdqsort embedding
below follows the Go sort package function for function; indices are
`Int` (Go `int`), the data is an `Array fieldInfo` and the comparison is
the closure `func(i, j int) bool { return fields[i].order < fields[j].order }`. -/

/-- `reflect.StructField` as far as the resolver consults it: `PkgPath`
(non-empty for unexported fields) and the `memorypack` struct tag
(`field.Tag.Get("memorypack")`). -/
structure StructField where
  name : String
  pkgPath : String
  tag : String
  kind : Ty

/-- The resolver's per-field record (`fieldInfo`). -/
structure fieldInfo where
  index : Nat
  kind : Ty
  name : String
  order : Int

def fieldInfoDflt : fieldInfo := { index := 0, kind := .bool, name := "", order := 0 }

/-- `strconv.Atoi`: optional sign, then decimal digits; anything else is
an error (`none`). -/
def atoiDigits (acc : Int) : List Char → Option Int
  | [] => some acc
  | c :: rest =>
    if '0' ≤ c ∧ c ≤ '9' then
      atoiDigits (acc * 10 + ((c.toNat : Int) - ('0'.toNat : Int))) rest
    else none

def atoi (s : List Char) : Option Int :=
  match s with
  | [] => none
  | '+' :: rest => if rest = [] then none else atoiDigits 0 rest
  | '-' :: rest => if rest = [] then none else (atoiDigits 0 rest).map (fun n => -n)
  | _ => atoiDigits 0 s

/-- `strings.Split(s, ",")` (always at least one part). -/
def splitComma : List Char → List (List Char)
  | [] => [[]]
  | c :: rest =>
    match splitComma rest with
    | [] => [[c]]
    | h :: t => if c = ',' then [] :: h :: t else (c :: h) :: t

/-- The field-collecting loop of `createFormatterData`: `i` is the
declaration index. The order is computed from the tag before the
`tag == "-"` skip test, exactly as in the source. -/
def collectFields (i : Nat) : List StructField → List fieldInfo
  | [] => []
  | f :: rest =>
    if f.pkgPath ≠ "" then collectFields (i + 1) rest
    else
      let order : Int :=
        if f.tag ≠ "" ∧ f.tag ≠ "-" then
          match (splitComma f.tag.toList).headD [] with
          | [] => (i : Int)
          | orderStr => (atoi orderStr).getD (i : Int)
        else (i : Int)
      if f.tag = "-" then collectFields (i + 1) rest
      else { index := i, kind := f.kind, name := f.name, order := order } ::
        collectFields (i + 1) rest

/-! ### Go `sort.Slice` = pdqsort (`sort/slice.go`, `sort/zsortfunc.go`) -/

abbrev SortData := List fieldInfo

/-- The less closure `fields[i].order < fields[j].order`. -/
def dLess (d : SortData) (i j : Int) : Bool :=
  decide ((d.getD i.toNat fieldInfoDflt).order < (d.getD j.toNat fieldInfoDflt).order)

/-- `reflect.Swapper`'s element swap. -/
def dSwap (d : SortData) (i j : Int) : SortData :=
  let x := d.getD i.toNat fieldInfoDflt
  let y := d.getD j.toNat fieldInfoDflt
  (d.set i.toNat y).set j.toNat x

/-- `for i <= j && p(i) { i++ }` -/
def scanWhileUp (p : Int → Bool) (i j : Int) : Int :=
  if i ≤ j ∧ p i then scanWhileUp p (i + 1) j else i
termination_by (j + 1 - i).toNat
decreasing_by omega

/-- `for i <= j && p(j) { j-- }` -/
def scanWhileDown (p : Int → Bool) (i j : Int) : Int :=
  if i ≤ j ∧ p j then scanWhileDown p i (j - 1) else j
termination_by (j + 1 - i).toNat
decreasing_by omega

theorem scanWhileUp_ge (p : Int → Bool) (i j : Int) : i ≤ scanWhileUp p i j := by
  apply scanWhileUp.induct p (motive := fun i j => i ≤ scanWhileUp p i j)
  · intro i j hc ih
    rw [scanWhileUp, if_pos hc]
    omega
  · intro i j hc
    rw [scanWhileUp, if_neg hc]

theorem scanWhileUp_le (p : Int → Bool) (i j : Int) (h : i ≤ j + 1) :
    scanWhileUp p i j ≤ j + 1 := by
  apply scanWhileUp.induct p (motive := fun i j => i ≤ j + 1 → scanWhileUp p i j ≤ j + 1)
    ?_ ?_ i j h
  · intro i j hc ih hij
    rw [scanWhileUp, if_pos hc]
    exact ih (by omega)
  · intro i j hc hij
    rw [scanWhileUp, if_neg hc]
    exact hij

theorem scanWhileDown_le (p : Int → Bool) (i j : Int) : scanWhileDown p i j ≤ j := by
  apply scanWhileDown.induct p i (motive := fun j => scanWhileDown p i j ≤ j)
  · intro x hc ih
    rw [scanWhileDown, if_pos hc]
    omega
  · intro x hc
    rw [scanWhileDown, if_neg hc]

theorem scanWhileDown_ge (p : Int → Bool) (i j : Int) (h : i - 1 ≤ j) :
    i - 1 ≤ scanWhileDown p i j := by
  apply scanWhileDown.induct p i (motive := fun j => i - 1 ≤ j → i - 1 ≤ scanWhileDown p i j)
    ?_ ?_ j h
  · intro x hc ih hij
    rw [scanWhileDown, if_pos hc]
    exact ih (by omega)
  · intro x hc hij
    rw [scanWhileDown, if_neg hc]
    exact hij

/-- The symmetric-scan loop of `partition_func` (after its first round). -/
def partitionLoop (d : SortData) (a i j : Int) : SortData × Int × Bool :=
  let i1 := scanWhileUp (fun x => dLess d x a) i j
  let j1 := scanWhileDown (fun x => !dLess d x a) i1 j
  if h : i1 > j1 then (dSwap d j1 a, j1, false)
  else partitionLoop (dSwap d i1 j1) a (i1 + 1) (j1 - 1)
termination_by (j + 1 - i).toNat
decreasing_by
  simp only [gt_iff_lt, not_lt, i1, j1] at h
  have h1 := scanWhileUp_ge (fun x => dLess d x a) i j
  have h2 := scanWhileDown_le (fun x => !dLess d x a) (scanWhileUp (fun x => dLess d x a) i j) j
  omega

/-- `partition_func`: Hoare partition, returning the new data, the final
pivot position, and whether the range was already partitioned. -/
def partitionF (d0 : SortData) (a b pivot : Int) : SortData × Int × Bool :=
  let d := dSwap d0 a pivot
  let i0 := a + 1
  let j0 := b - 1
  let i := scanWhileUp (fun x => dLess d x a) i0 j0
  let j := scanWhileDown (fun x => !dLess d x a) i j0
  if i > j then (dSwap d j a, j, true)
  else partitionLoop (dSwap d i j) a (i + 1) (j - 1)

/-- The scan loop of `partitionEqual_func`. -/
def partitionEqualLoop (d : SortData) (a i j : Int) : SortData × Int :=
  let i1 := scanWhileUp (fun x => !dLess d a x) i j
  let j1 := scanWhileDown (fun x => dLess d a x) i1 j
  if h : i1 > j1 then (d, i1)
  else partitionEqualLoop (dSwap d i1 j1) a (i1 + 1) (j1 - 1)
termination_by (j + 1 - i).toNat
decreasing_by
  simp only [gt_iff_lt, not_lt, i1, j1] at h
  have h1 := scanWhileUp_ge (fun x => !dLess d a x) i j
  have h2 := scanWhileDown_le (fun x => dLess d a x) (scanWhileUp (fun x => !dLess d a x) i j) j
  omega

/-- `partitionEqual_func`: moves elements equal to the pivot to the
front, returning the first index past them. -/
def partitionEqualF (d0 : SortData) (a b pivot : Int) : SortData × Int :=
  let d := dSwap d0 a pivot
  partitionEqualLoop d a (a + 1) (b - 1)

theorem scanWhileDown_stuck (p : Int → Bool) (i j : Int) (h : j < i) :
    scanWhileDown p i j = j := by
  rw [scanWhileDown, if_neg (by omega : ¬ (i ≤ j ∧ p j = true))]

theorem partitionLoop_bounds (d : SortData) (a i j : Int) (h : i ≤ j + 2) :
    i - 2 ≤ (partitionLoop d a i j).2.1 ∧ (partitionLoop d a i j).2.1 ≤ j := by
  apply partitionLoop.induct
    (motive := fun d a i j => i ≤ j + 2 →
      i - 2 ≤ (partitionLoop d a i j).2.1 ∧ (partitionLoop d a i j).2.1 ≤ j)
    ?_ ?_ d a i j h
  · intro d a i j i1 j1 hgt hij
    have h1 := scanWhileUp_ge (fun x => dLess d x a) i j
    have h3 := scanWhileDown_le (fun x => !dLess d x a)
      (scanWhileUp (fun x => dLess d x a) i j) j
    simp only [i1, j1] at hgt
    rw [partitionLoop]
    simp only [dif_pos hgt]
    by_cases hc : scanWhileUp (fun x => dLess d x a) i j - 1 ≤ j
    · have h4 := scanWhileDown_ge (fun x => !dLess d x a)
        (scanWhileUp (fun x => dLess d x a) i j) j hc
      constructor <;> omega
    · have h5 := scanWhileDown_stuck (fun x => !dLess d x a)
        (scanWhileUp (fun x => dLess d x a) i j) j (by omega)
      rw [h5]
      constructor <;> omega
  · intro d a i j i1 j1 hgt ih hij
    have h1 := scanWhileUp_ge (fun x => dLess d x a) i j
    have h3 := scanWhileDown_le (fun x => !dLess d x a)
      (scanWhileUp (fun x => dLess d x a) i j) j
    simp only [i1, j1] at hgt ih
    simp only [gt_iff_lt, not_lt] at hgt
    have h5 := ih (by omega)
    rw [partitionLoop]
    simp only [dif_neg (by simp only [gt_iff_lt, not_lt]; exact hgt :
      ¬ scanWhileUp (fun x => dLess d x a) i j >
        scanWhileDown (fun x => !dLess d x a)
          (scanWhileUp (fun x => dLess d x a) i j) j)]
    constructor <;> omega

theorem partitionF_bounds (d : SortData) (a b pivot : Int) (h : a + 1 ≤ b) :
    a ≤ (partitionF d a b pivot).2.1 ∧ (partitionF d a b pivot).2.1 ≤ b - 1 := by
  have h1 := scanWhileUp_ge (fun x => dLess (dSwap d a pivot) x a) (a + 1) (b - 1)
  have h3 := scanWhileDown_le (fun x => !dLess (dSwap d a pivot) x a)
    (scanWhileUp (fun x => dLess (dSwap d a pivot) x a) (a + 1) (b - 1)) (b - 1)
  have h2 := scanWhileUp_le (fun x => dLess (dSwap d a pivot) x a) (a + 1) (b - 1) (by omega)
  have hlow : scanWhileUp (fun x => dLess (dSwap d a pivot) x a) (a + 1) (b - 1) - 2 ≤
      scanWhileDown (fun x => !dLess (dSwap d a pivot) x a)
        (scanWhileUp (fun x => dLess (dSwap d a pivot) x a) (a + 1) (b - 1)) (b - 1) := by
    by_cases hc : scanWhileUp (fun x => dLess (dSwap d a pivot) x a) (a + 1) (b - 1) - 1 ≤ b - 1
    · have h4 := scanWhileDown_ge (fun x => !dLess (dSwap d a pivot) x a)
        (scanWhileUp (fun x => dLess (dSwap d a pivot) x a) (a + 1) (b - 1)) (b - 1) hc
      omega
    · have h5 := scanWhileDown_stuck (fun x => !dLess (dSwap d a pivot) x a)
        (scanWhileUp (fun x => dLess (dSwap d a pivot) x a) (a + 1) (b - 1)) (b - 1) (by omega)
      omega
  rw [partitionF]
  split
  · rename_i hgt
    dsimp only
    by_cases hc : scanWhileUp (fun x => dLess (dSwap d a pivot) x a) (a + 1) (b - 1) - 1 ≤ b - 1
    · have h4 := scanWhileDown_ge (fun x => !dLess (dSwap d a pivot) x a)
        (scanWhileUp (fun x => dLess (dSwap d a pivot) x a) (a + 1) (b - 1)) (b - 1) hc
      constructor <;> omega
    · have h5 := scanWhileDown_stuck (fun x => !dLess (dSwap d a pivot) x a)
        (scanWhileUp (fun x => dLess (dSwap d a pivot) x a) (a + 1) (b - 1)) (b - 1) (by omega)
      rw [h5] at hgt ⊢
      constructor <;> omega
  · rename_i hgt
    simp only [gt_iff_lt, not_lt] at hgt
    have h5 := partitionLoop_bounds
      (dSwap (dSwap d a pivot)
        (scanWhileUp (fun x => dLess (dSwap d a pivot) x a) (a + 1) (b - 1))
        (scanWhileDown (fun x => !dLess (dSwap d a pivot) x a)
          (scanWhileUp (fun x => dLess (dSwap d a pivot) x a) (a + 1) (b - 1)) (b - 1)))
      a
      (scanWhileUp (fun x => dLess (dSwap d a pivot) x a) (a + 1) (b - 1) + 1)
      (scanWhileDown (fun x => !dLess (dSwap d a pivot) x a)
        (scanWhileUp (fun x => dLess (dSwap d a pivot) x a) (a + 1) (b - 1)) (b - 1) - 1)
      (by omega)
    constructor <;> omega

theorem partitionEqualLoop_bounds (d : SortData) (a i j : Int) (h : i ≤ j + 2) :
    i ≤ (partitionEqualLoop d a i j).2 ∧ (partitionEqualLoop d a i j).2 ≤ j + 2 := by
  apply partitionEqualLoop.induct
    (motive := fun d a i j => i ≤ j + 2 →
      i ≤ (partitionEqualLoop d a i j).2 ∧ (partitionEqualLoop d a i j).2 ≤ j + 2)
    ?_ ?_ d a i j h
  · intro d a i j i1 j1 hgt hij
    have h1 := scanWhileUp_ge (fun x => !dLess d a x) i j
    have h2 := scanWhileUp_le (fun x => !dLess d a x) i j
    have h3 := scanWhileDown_le (fun x => dLess d a x)
      (scanWhileUp (fun x => !dLess d a x) i j) j
    simp only [i1, j1] at hgt
    rw [partitionEqualLoop]
    simp only [dif_pos hgt]
    by_cases hc : i ≤ j + 1
    · have h2c := h2 hc
      constructor <;> omega
    · have h5 : scanWhileUp (fun x => !dLess d a x) i j = i := by
        rw [scanWhileUp, if_neg (by omega : ¬ (i ≤ j ∧ (!dLess d a i) = true))]
      rw [h5]
      constructor <;> omega
  · intro d a i j i1 j1 hgt ih hij
    have h1 := scanWhileUp_ge (fun x => !dLess d a x) i j
    have h3 := scanWhileDown_le (fun x => dLess d a x)
      (scanWhileUp (fun x => !dLess d a x) i j) j
    simp only [i1, j1] at hgt ih
    simp only [gt_iff_lt, not_lt] at hgt
    have h5 := ih (by omega)
    rw [partitionEqualLoop]
    simp only [dif_neg (by simp only [gt_iff_lt, not_lt]; exact hgt :
      ¬ scanWhileUp (fun x => !dLess d a x) i j >
        scanWhileDown (fun x => dLess d a x)
          (scanWhileUp (fun x => !dLess d a x) i j) j)]
    constructor <;> omega

theorem partitionEqualF_bounds (d : SortData) (a b pivot : Int) (h : a + 2 ≤ b) :
    a + 1 ≤ (partitionEqualF d a b pivot).2 ∧ (partitionEqualF d a b pivot).2 ≤ b + 1 := by
  rw [partitionEqualF]
  have h5 := partitionEqualLoop_bounds (dSwap d a pivot) a (a + 1) (b - 1) (by omega)
  constructor <;> omega

/-- `insertionSort_func`'s inner shifting loop. -/
def insertionInner (d : SortData) (a j : Int) : SortData :=
  if a < j ∧ dLess d j (j - 1) then insertionInner (dSwap d j (j - 1)) a (j - 1) else d
termination_by (j - a).toNat
decreasing_by omega

/-- `insertionSort_func`'s outer loop. -/
def insertionOuter (d : SortData) (a b i : Int) : SortData :=
  if i < b then insertionOuter (insertionInner d a i) a b (i + 1) else d
termination_by (b - i).toNat
decreasing_by omega

/-- `insertionSort_func` -/
def insertionSortF (d : SortData) (a b : Int) : SortData :=
  insertionOuter d a b (a + 1)

/-- `siftDown_func`: the heap sift loop (`root` descends; the root index
is non-negative throughout in Go, so it is a `Nat` here). -/
def siftDownF (d : SortData) (lo : Nat) (hi first : Int) : SortData :=
  let child := 2 * lo + 1
  if hchild : (child : Int) ≥ hi then d
  else
    let child := if ((child : Int) + 1 < hi ∧ dLess d (first + child) (first + child + 1) : Prop)
      then child + 1 else child
    if ¬ dLess d (first + lo) (first + child) then d
    else siftDownF (dSwap d (first + lo) (first + child)) child hi first
termination_by (hi - lo).toNat
decreasing_by
  simp only [ge_iff_le, not_le] at hchild
  split <;> omega

/-- The first loop of `heapSort_func` (build the heap, `i` descending). -/
def heapBuild (d : SortData) (hi first i : Int) : SortData :=
  if i ≥ 0 then heapBuild (siftDownF d i.toNat hi first) hi first (i - 1) else d
termination_by (i + 1).toNat
decreasing_by omega

/-- The second loop of `heapSort_func` (pop maxima, `i` descending). -/
def heapPop (d : SortData) (first i : Int) : SortData :=
  if i ≥ 0 then heapPop (siftDownF (dSwap d first (first + i)) 0 i first) first (i - 1) else d
termination_by (i + 1).toNat
decreasing_by omega

/-- `heapSort_func` -/
def heapSortF (d : SortData) (a b : Int) : SortData :=
  let first := a
  let hi := b - a
  let d := heapBuild d hi first ((hi - 1) / 2)
  heapPop d first (hi - 1)

/-- `reverseRange_func` -/
def reverseRangeF (d : SortData) (i j : Int) : SortData :=
  if i < j then reverseRangeF (dSwap d i j) (i + 1) (j - 1) else d
termination_by (j - i).toNat
decreasing_by omega

/-- Wrapper matching `reverseRange_func(data, a, b)`, which reverses
`[a, b-1]`. -/
def reverseRangeAB (d : SortData) (a b : Int) : SortData :=
  reverseRangeF d a (b - 1)

inductive SortedHint where
  | increasing
  | decreasing
  | unknown
deriving Repr, DecidableEq

/-- `order2_func`: orders two indices by comparison, counting inversions. -/
def order2F (d : SortData) (a b : Int) (swaps : Nat) : Int × Int × Nat :=
  if dLess d b a then (b, a, swaps + 1) else (a, b, swaps)

/-- `median_func` -/
def medianF (d : SortData) (a b c : Int) (swaps : Nat) : Int × Nat :=
  match order2F d a b swaps with
  | (a, b, swaps) =>
    match order2F d b c swaps with
    | (b, _, swaps) =>
      match order2F d a b swaps with
      | (_, b, swaps) => (b, swaps)

/-- `medianAdjacent_func` -/
def medianAdjacentF (d : SortData) (a : Int) (swaps : Nat) : Int × Nat :=
  medianF d (a - 1) a (a + 1) swaps

/-- `choosePivot_func`: Tukey-ninther pivot selection with a sortedness
hint derived from the inversion count. -/
def choosePivotF (d : SortData) (a b : Int) : Int × SortedHint :=
  let l := b - a
  let i := a + l / 4 * 1
  let j := a + l / 4 * 2
  let k := a + l / 4 * 3
  let r :=
    if l ≥ 8 then
      if l ≥ 50 then
        match medianAdjacentF d i 0 with
        | (i, swaps) =>
          match medianAdjacentF d j swaps with
          | (j, swaps) =>
            match medianAdjacentF d k swaps with
            | (k, swaps) => medianF d i j k swaps
      else medianF d i j k 0
    else (j, 0)
  match r with
  | (j, swaps) =>
    if swaps = 0 then (j, SortedHint.increasing)
    else if swaps = 12 then (j, SortedHint.decreasing)
    else (j, SortedHint.unknown)

/-- `partialInsertionSort_func`'s left-shift loop. -/
def shiftLeftLoop (d : SortData) (j : Int) : SortData :=
  if 1 ≤ j ∧ dLess d j (j - 1) then shiftLeftLoop (dSwap d j (j - 1)) (j - 1) else d
termination_by j.toNat
decreasing_by omega

/-- `partialInsertionSort_func`'s right-shift loop. -/
def shiftRightLoop (d : SortData) (b j : Int) : SortData :=
  if j < b ∧ dLess d j (j - 1) then shiftRightLoop (dSwap d j (j - 1)) b (j + 1) else d
termination_by (b - j).toNat
decreasing_by omega

/-- The step loop of `partialInsertionSort_func` (`steps` counts up to
`maxSteps = 5`); returns the data and whether the range ended sorted. -/
def partialInsertionSortLoop (d : SortData) (a b i : Int) (steps : Nat) : SortData × Bool :=
  if steps ≥ 5 then (d, false)
  else
    let i := scanWhileUp (fun x => !dLess d x (x - 1)) i (b - 1)
    if i = b then (d, true)
    else if b - a < 50 then (d, false)
    else
      let d := dSwap d i (i - 1)
      let d := if i - a ≥ 2 then shiftLeftLoop d (i - 1) else d
      let d := if b - i ≥ 2 then shiftRightLoop d b (i + 1) else d
      partialInsertionSortLoop d a b i (steps + 1)
termination_by 5 - steps
decreasing_by omega

/-- `partialInsertionSort_func`. The Go loop `for i < b && !data.Less(i, i-1)`
is `scanWhileUp` with bound `b - 1` (loop while `i ≤ b-1`). -/
def partialInsertionSortF (d : SortData) (a b : Int) : SortData × Bool :=
  partialInsertionSortLoop d a b (a + 1) 0

/-- `nextPowerOfTwo`: `1 << bits.Len(uint(length))`. -/
def nextPowerOfTwo (length : Nat) : Nat :=
  1 <<< (if length = 0 then 0 else Nat.log2 length + 1)

/-- `xorshift.Next`: the 64-bit xorshift step. -/
def xorshiftNext (r : Nat) : Nat :=
  let r1 := (r ^^^ (r <<< 13)) % 18446744073709551616
  let r2 := r1 ^^^ (r1 >>> 7)
  (r2 ^^^ (r2 <<< 17)) % 18446744073709551616

/-- The three-swap loop of `breakPatterns_func`. -/
def breakPatternsLoop (d : SortData) (a length : Int) (rng modulus : Nat)
    (idx stop : Int) : SortData :=
  if idx ≤ stop then
    let rng1 := xorshiftNext rng
    let other0 : Int := (rng1 &&& (modulus - 1) : Nat)
    let other := if other0 ≥ length then other0 - length else other0
    breakPatternsLoop (dSwap d idx (a + other)) a length rng1 modulus (idx + 1) stop
  else d
termination_by (stop + 1 - idx).toNat
decreasing_by omega

/-- `breakPatterns_func` -/
def breakPatternsF (d : SortData) (a b : Int) : SortData :=
  let length := b - a
  if length ≥ 8 then
    let rng := length.toNat
    let modulus := nextPowerOfTwo length.toNat
    breakPatternsLoop d a length rng modulus (a + length / 4 * 2 - 1) (a + length / 4 * 2 + 1)
  else d


mutual

/-- `pdqsort_func` entry: fresh `wasBalanced = wasPartitioned = true`. -/
def pdqsortF (d : SortData) (a b limit : Int) : SortData :=
  pdqsortLoop d a b limit true true
termination_by ((b - a).toNat, 1)

/-- The trailing loop of `pdqsort_func` with the current flag values. -/
def pdqsortLoop (d1 : SortData) (a b limit1 : Int) (wasBalanced wasPartitioned : Bool) :
    SortData :=
  if h12 : b - a ≤ 12 then insertionSortF d1 a b
  else if limit1 = 0 then heapSortF d1 a b
  else
    match (if !wasBalanced then (breakPatternsF d1 a b, limit1 - 1) else (d1, limit1)) with
    | (d2, limit) =>
      match choosePivotF d2 a b with
      | (pivot0, hint0) =>
        match (if hint0 = SortedHint.decreasing
            then (reverseRangeAB d2 a b, (b - 1) - (pivot0 - a), SortedHint.increasing)
            else (d2, pivot0, hint0)) with
        | (d3, pivot, hint) =>
          match (if wasBalanced ∧ wasPartitioned ∧ hint = SortedHint.increasing
              then partialInsertionSortF d3 a b
              else (d3, false)) with
          | (d4, sorted) =>
            if sorted then d4
            else if 0 < a ∧ ¬ dLess d4 (a - 1) pivot then
              match hpe : partitionEqualF d4 a b pivot with
              | (d5, mid) => pdqsortLoop d5 mid b limit wasBalanced wasPartitioned
            else
              match hpt : partitionF d4 a b pivot with
              | (d5, mid, alreadyPartitioned) =>
                if mid - a < b - mid then
                  pdqsortLoop (pdqsortF d5 a mid limit) (mid + 1) b limit
                    (decide (min (mid - a) (b - mid) ≥ (b - a) / 8)) alreadyPartitioned
                else
                  pdqsortLoop (pdqsortF d5 (mid + 1) b limit) a mid limit
                    (decide (min (mid - a) (b - mid) ≥ (b - a) / 8)) alreadyPartitioned
termination_by ((b - a).toNat, 0)
decreasing_by
  · simp only [Prod.lex_def]
    have hb := partitionEqualF_bounds d4 a b pivot (by omega)
    rw [hpe] at hb
    replace hb : a + 1 ≤ mid ∧ mid ≤ b + 1 := hb
    omega
  · simp only [Prod.lex_def]
    have hb := partitionF_bounds d4 a b pivot (by omega)
    rw [hpt] at hb
    replace hb : a ≤ mid ∧ mid ≤ b - 1 := hb
    omega
  · simp only [Prod.lex_def]
    have hb := partitionF_bounds d4 a b pivot (by omega)
    rw [hpt] at hb
    replace hb : a ≤ mid ∧ mid ≤ b - 1 := hb
    omega
  · simp only [Prod.lex_def]
    have hb := partitionF_bounds d4 a b pivot (by omega)
    rw [hpt] at hb
    replace hb : a ≤ mid ∧ mid ≤ b - 1 := hb
    omega
  · simp only [Prod.lex_def]
    have hb := partitionF_bounds d4 a b pivot (by omega)
    rw [hpt] at hb
    replace hb : a ≤ mid ∧ mid ≤ b - 1 := hb
    omega

end

/-- `sort.Slice(fields, func(i, j int) { return fields[i].order < fields[j].order })`:
`pdqsort_func(lessSwap, 0, length, bits.Len(uint(length)))`. -/
def sortSliceGo (fields : List fieldInfo) : List fieldInfo :=
  pdqsortF fields 0 fields.length
    (if fields.length = 0 then 0 else ((Nat.log2 fields.length) + 1 : Nat))

/-- `createFormatterData`: collect the serializable fields, then sort by
declared order with `sort.Slice`. -/
def createFormatterData (fields : List StructField) : List fieldInfo :=
  sortSliceGo (collectFields 0 fields)


/-! ### Fueled twins of the sort loops (kernel-computable) -/

/-- Fueled `scanWhileUp`. -/
def scanWhileUpFuel : Nat → (Int → Bool) → Int → Int → Int
  | 0, _, i, _ => i
  | fuel + 1, p, i, j => if i ≤ j ∧ p i then scanWhileUpFuel fuel p (i + 1) j else i

/-- Fueled `scanWhileDown`. -/
def scanWhileDownFuel : Nat → (Int → Bool) → Int → Int → Int
  | 0, _, _, j => j
  | fuel + 1, p, i, j => if i ≤ j ∧ p j then scanWhileDownFuel fuel p i (j - 1) else j

/-- Fueled `partitionLoop`. -/
def partitionLoopFuel : Nat → SortData → Int → Int → Int → SortData × Int × Bool
  | 0, d, a, _, j => (dSwap d j a, j, false)
  | fuel + 1, d, a, i, j =>
    let i1 := scanWhileUpFuel (j + 1 - i).toNat (fun x => dLess d x a) i j
    let j1 := scanWhileDownFuel (j + 1 - i1).toNat (fun x => !dLess d x a) i1 j
    if i1 > j1 then (dSwap d j1 a, j1, false)
    else partitionLoopFuel fuel (dSwap d i1 j1) a (i1 + 1) (j1 - 1)

/-- Fueled `partition_func`. -/
def partitionC (d0 : SortData) (a b pivot : Int) : SortData × Int × Bool :=
  let d := dSwap d0 a pivot
  let i0 := a + 1
  let j0 := b - 1
  let i := scanWhileUpFuel (j0 + 1 - i0).toNat (fun x => dLess d x a) i0 j0
  let j := scanWhileDownFuel (j0 + 1 - i).toNat (fun x => !dLess d x a) i j0
  if i > j then (dSwap d j a, j, true)
  else partitionLoopFuel ((j - 1) + 1 - (i + 1)).toNat (dSwap d i j) a (i + 1) (j - 1)

/-- Fueled `partitionEqualLoop`. -/
def partitionEqualLoopFuel : Nat → SortData → Int → Int → Int → SortData × Int
  | 0, d, _, i, _ => (d, i)
  | fuel + 1, d, a, i, j =>
    let i1 := scanWhileUpFuel (j + 1 - i).toNat (fun x => !dLess d a x) i j
    let j1 := scanWhileDownFuel (j + 1 - i1).toNat (fun x => dLess d a x) i1 j
    if i1 > j1 then (d, i1)
    else partitionEqualLoopFuel fuel (dSwap d i1 j1) a (i1 + 1) (j1 - 1)

/-- Fueled `partitionEqual_func`. -/
def partitionEqualC (d0 : SortData) (a b pivot : Int) : SortData × Int :=
  let d := dSwap d0 a pivot
  partitionEqualLoopFuel ((b - 1) + 1 - (a + 1)).toNat d a (a + 1) (b - 1)

/-- Fueled `insertionInner`. -/
def insertionInnerFuel : Nat → SortData → Int → Int → SortData
  | 0, d, _, _ => d
  | fuel + 1, d, a, j =>
    if a < j ∧ dLess d j (j - 1) then insertionInnerFuel fuel (dSwap d j (j - 1)) a (j - 1) else d

/-- Fueled `insertionOuter`. -/
def insertionOuterFuel : Nat → SortData → Int → Int → Int → SortData
  | 0, d, _, _, _ => d
  | fuel + 1, d, a, b, i =>
    if i < b then insertionOuterFuel fuel (insertionInnerFuel (i - a).toNat d a i) a b (i + 1)
    else d

/-- Fueled `insertionSort_func`. -/
def insertionSortC (d : SortData) (a b : Int) : SortData :=
  insertionOuterFuel (b - (a + 1)).toNat d a b (a + 1)

/-- Fueled `siftDown_func`. -/
def siftDownFFuel : Nat → SortData → Nat → Int → Int → SortData
  | 0, d, _, _, _ => d
  | fuel + 1, d, lo, hi, first =>
    let child := 2 * lo + 1
    if (child : Int) ≥ hi then d
    else
      let child := if ((child : Int) + 1 < hi ∧ dLess d (first + child) (first + child + 1) : Prop)
        then child + 1 else child
      if ¬ dLess d (first + lo) (first + child) then d
      else siftDownFFuel fuel (dSwap d (first + lo) (first + child)) child hi first

/-- Fueled heap-build loop. -/
def heapBuildFuel : Nat → SortData → Int → Int → Int → SortData
  | 0, d, _, _, _ => d
  | fuel + 1, d, hi, first, i =>
    if i ≥ 0 then
      heapBuildFuel fuel (siftDownFFuel (hi - (i.toNat : Int)).toNat d i.toNat hi first) hi first (i - 1)
    else d

/-- Fueled heap-pop loop. -/
def heapPopFuel : Nat → SortData → Int → Int → SortData
  | 0, d, _, _ => d
  | fuel + 1, d, first, i =>
    if i ≥ 0 then
      heapPopFuel fuel (siftDownFFuel (i - ((0 : Nat) : Int)).toNat (dSwap d first (first + i)) 0 i first) first (i - 1)
    else d

/-- Fueled `heapSort_func`. -/
def heapSortC (d : SortData) (a b : Int) : SortData :=
  let first := a
  let hi := b - a
  let d := heapBuildFuel (((hi - 1) / 2) + 1).toNat d hi first ((hi - 1) / 2)
  heapPopFuel ((hi - 1) + 1).toNat d first (hi - 1)

/-- Fueled `reverseRange_func`. -/
def reverseRangeFFuel : Nat → SortData → Int → Int → SortData
  | 0, d, _, _ => d
  | fuel + 1, d, i, j => if i < j then reverseRangeFFuel fuel (dSwap d i j) (i + 1) (j - 1) else d

/-- Fueled `reverseRange_func(data, a, b)` wrapper. -/
def reverseRangeC (d : SortData) (a b : Int) : SortData :=
  reverseRangeFFuel ((b - 1) - a).toNat d a (b - 1)

/-- Fueled left-shift loop. -/
def shiftLeftLoopFuel : Nat → SortData → Int → SortData
  | 0, d, _ => d
  | fuel + 1, d, j =>
    if 1 ≤ j ∧ dLess d j (j - 1) then shiftLeftLoopFuel fuel (dSwap d j (j - 1)) (j - 1) else d

/-- Fueled right-shift loop. -/
def shiftRightLoopFuel : Nat → SortData → Int → Int → SortData
  | 0, d, _, _ => d
  | fuel + 1, d, b, j =>
    if j < b ∧ dLess d j (j - 1) then shiftRightLoopFuel fuel (dSwap d j (j - 1)) b (j + 1) else d

/-- Fueled `partialInsertionSortLoop`. -/
def partialInsertionSortLoopFuel : Nat → SortData → Int → Int → Int → Nat → SortData × Bool
  | 0, d, _, _, _, _ => (d, false)
  | fuel + 1, d, a, b, i, steps =>
    if steps ≥ 5 then (d, false)
    else
      let i := scanWhileUpFuel ((b - 1) + 1 - i).toNat (fun x => !dLess d x (x - 1)) i (b - 1)
      if i = b then (d, true)
      else if b - a < 50 then (d, false)
      else
        let d := dSwap d i (i - 1)
        let d := if i - a ≥ 2 then shiftLeftLoopFuel (i - 1).toNat d (i - 1) else d
        let d := if b - i ≥ 2 then shiftRightLoopFuel (b - (i + 1)).toNat d b (i + 1) else d
        partialInsertionSortLoopFuel fuel d a b i (steps + 1)

/-- Fueled `partialInsertionSort_func`. -/
def partialInsertionSortC (d : SortData) (a b : Int) : SortData × Bool :=
  partialInsertionSortLoopFuel (5 - 0) d a b (a + 1) 0

/-- Fueled `Nat.log2`. -/
def log2Fuel : Nat → Nat → Nat
  | 0, _ => 0
  | fuel + 1, n => if n ≥ 2 then log2Fuel fuel (n / 2) + 1 else 0

/-- Fueled `nextPowerOfTwo`. -/
def nextPowerOfTwoC (length : Nat) : Nat :=
  1 <<< (if length = 0 then 0 else log2Fuel length length + 1)

/-- Fueled `breakPatternsLoop`. -/
def breakPatternsLoopFuel : Nat → SortData → Int → Int → Nat → Nat → Int → Int → SortData
  | 0, d, _, _, _, _, _, _ => d
  | fuel + 1, d, a, length, rng, modulus, idx, stop =>
    if idx ≤ stop then
      let rng1 := xorshiftNext rng
      let other0 : Int := (rng1 &&& (modulus - 1) : Nat)
      let other := if other0 ≥ length then other0 - length else other0
      breakPatternsLoopFuel fuel (dSwap d idx (a + other)) a length rng1 modulus (idx + 1) stop
    else d

/-- Fueled `breakPatterns_func`. -/
def breakPatternsC (d : SortData) (a b : Int) : SortData :=
  let length := b - a
  if length ≥ 8 then
    let rng := length.toNat
    let modulus := nextPowerOfTwoC length.toNat
    breakPatternsLoopFuel ((a + length / 4 * 2 + 1) + 1 - (a + length / 4 * 2 - 1)).toNat
      d a length rng modulus (a + length / 4 * 2 - 1) (a + length / 4 * 2 + 1)
  else d

/-- Fueled `pdqsort_func` loop (entry = flags `true true`). -/
def pdqsortLoopFuel : Nat → SortData → Int → Int → Int → Bool → Bool → SortData
  | 0, d1, _, _, _, _, _ => d1
  | fuel + 1, d1, a, b, limit1, wasBalanced, wasPartitioned =>
    if b - a ≤ 12 then insertionSortC d1 a b
    else if limit1 = 0 then heapSortC d1 a b
    else
      match (if !wasBalanced then (breakPatternsC d1 a b, limit1 - 1) else (d1, limit1)) with
      | (d2, limit) =>
        match choosePivotF d2 a b with
        | (pivot0, hint0) =>
          match (if hint0 = SortedHint.decreasing
              then (reverseRangeC d2 a b, (b - 1) - (pivot0 - a), SortedHint.increasing)
              else (d2, pivot0, hint0)) with
          | (d3, pivot, hint) =>
            match (if wasBalanced ∧ wasPartitioned ∧ hint = SortedHint.increasing
                then partialInsertionSortC d3 a b
                else (d3, false)) with
            | (d4, sorted) =>
              if sorted then d4
              else if 0 < a ∧ ¬ dLess d4 (a - 1) pivot then
                match partitionEqualC d4 a b pivot with
                | (d5, mid) => pdqsortLoopFuel fuel d5 mid b limit wasBalanced wasPartitioned
              else
                match partitionC d4 a b pivot with
                | (d5, mid, alreadyPartitioned) =>
                  if mid - a < b - mid then
                    pdqsortLoopFuel fuel (pdqsortLoopFuel fuel d5 a mid limit true true)
                      (mid + 1) b limit
                      (decide (min (mid - a) (b - mid) ≥ (b - a) / 8)) alreadyPartitioned
                  else
                    pdqsortLoopFuel fuel (pdqsortLoopFuel fuel d5 (mid + 1) b limit true true)
                      a mid limit
                      (decide (min (mid - a) (b - mid) ≥ (b - a) / 8)) alreadyPartitioned

/-- 13 exported fields whose `memorypack` tags declare orders
`2, 1, 1, 1, 1, 1, 1, 1, 1, 1, 1, 1, 0` in declaration order. -/
def tie13 : List StructField :=
  [⟨"F0", "", "2", .int8⟩, ⟨"F1", "", "1", .int8⟩, ⟨"F2", "", "1", .int8⟩,
   ⟨"F3", "", "1", .int8⟩, ⟨"F4", "", "1", .int8⟩, ⟨"F5", "", "1", .int8⟩,
   ⟨"F6", "", "1", .int8⟩, ⟨"F7", "", "1", .int8⟩, ⟨"F8", "", "1", .int8⟩,
   ⟨"F9", "", "1", .int8⟩, ⟨"F10", "", "1", .int8⟩, ⟨"F11", "", "1", .int8⟩,
   ⟨"F12", "", "0", .int8⟩]

/-- The spec's example: fields declared `A(order=2), B(order=1), C(order=0)`. -/
def fieldsABC : List StructField :=
  [⟨"A", "", "2", .int8⟩, ⟨"B", "", "1", .int8⟩, ⟨"C", "", "0", .int8⟩]


/-! # Theorems -/

set_option maxHeartbeats 1000000 in
theorem Ty.beq_iff : ∀ a b : Ty, (Ty.beq a b = true ↔ a = b) := by
  apply Ty.beq.induct
    (fun a b => Ty.beq a b = true ↔ a = b)
    (fun xs ys => Ty.beqList xs ys = true ↔ xs = ys)
  case case15 =>
    intro t x h1 h2 h3 h4 h5 h6 h7 h8 h9 h10 h11 h12 h13 h14
    cases t <;> cases x <;>
      first
      | exact (h1 rfl rfl).elim
      | exact (h2 rfl rfl).elim
      | exact (h3 rfl rfl).elim
      | exact (h4 rfl rfl).elim
      | exact (h5 rfl rfl).elim
      | exact (h6 rfl rfl).elim
      | exact (h7 rfl rfl).elim
      | exact (h8 rfl rfl).elim
      | exact (h9 rfl rfl).elim
      | exact (h10 _ _ rfl rfl).elim
      | exact (h11 _ _ _ _ rfl rfl).elim
      | exact (h12 _ _ _ _ rfl rfl).elim
      | exact (h13 _ _ rfl rfl).elim
      | exact (h14 _ _ rfl rfl).elim
      | simp [Ty.beq]
  case case18 =>
    intro xs ys h1 h2
    cases xs <;> cases ys <;>
      first
      | exact (h1 rfl rfl).elim
      | exact (h2 _ _ _ _ rfl rfl).elim
      | simp [Ty.beqList]
  all_goals intros
  all_goals simp_all [Ty.beq, Ty.beqList]

instance : DecidableEq Ty := fun a b => decidable_of_iff _ (Ty.beq_iff a b)

/-! ## Reader operation lemmas -/

theorem readByte_error {r : Reader} {e : GoErr}
    (h : (r.readByte).1 = .error e) : e = .endOfBuffer ∧ (r.readByte).2 = r := by
  unfold Reader.readByte at h ⊢
  by_cases hc : r.pos < r.buffer.length
  · rw [if_pos hc] at h
    exact absurd h (by simp)
  · rw [if_neg hc] at h ⊢
    simp at h
    exact ⟨h.symm, rfl⟩

theorem readInt32_error {r : Reader} {e : GoErr}
    (h : (r.readInt32).1 = .error e) : e = .endOfBuffer ∧ (r.readInt32).2 = r := by
  unfold Reader.readInt32 at h ⊢
  by_cases hc : r.pos + 4 ≤ r.buffer.length
  · rw [if_pos hc] at h
    exact absurd h (by simp)
  · rw [if_neg hc] at h ⊢
    simp at h
    exact ⟨h.symm, rfl⟩

theorem readByte_split (r : Reader) :
    r.readByte = (.error .endOfBuffer, r) ∨
      r.readByte = (.ok (r.buffer.getD r.pos 0), { r with pos := r.pos + 1 }) := by
  unfold Reader.readByte
  split
  · exact Or.inr rfl
  · exact Or.inl rfl

theorem readInt16_split (r : Reader) :
    r.readInt16 = (.error .endOfBuffer, r) ∨
      r.readInt16 = (.ok (toSigned 16 (r.uintLE 2)), { r with pos := r.pos + 2 }) := by
  unfold Reader.readInt16
  split
  · exact Or.inr rfl
  · exact Or.inl rfl

theorem readInt32_split (r : Reader) :
    r.readInt32 = (.error .endOfBuffer, r) ∨
      r.readInt32 = (.ok (toSigned 32 (r.uintLE 4)), { r with pos := r.pos + 4 }) := by
  unfold Reader.readInt32
  split
  · exact Or.inr rfl
  · exact Or.inl rfl

theorem readInt64_split (r : Reader) :
    r.readInt64 = (.error .endOfBuffer, r) ∨
      r.readInt64 = (.ok (toSigned 64 (r.uintLE 8)), { r with pos := r.pos + 8 }) := by
  unfold Reader.readInt64
  split
  · exact Or.inr rfl
  · exact Or.inl rfl

theorem readFloat32_split (r : Reader) :
    r.readFloat32 = (.error .endOfBuffer, r) ∨
      r.readFloat32 = (.ok (r.uintLE 4), { r with pos := r.pos + 4 }) := by
  unfold Reader.readFloat32
  split
  · exact Or.inr rfl
  · exact Or.inl rfl

theorem readFloat64_split (r : Reader) :
    r.readFloat64 = (.error .endOfBuffer, r) ∨
      r.readFloat64 = (.ok (r.uintLE 8), { r with pos := r.pos + 8 }) := by
  unfold Reader.readFloat64
  split
  · exact Or.inr rfl
  · exact Or.inl rfl

/-- **C10** (implicit, from `ReadString`): whenever the next four
little-endian bytes decode to a non-negative int32, `ReadString` succeeds
with the empty string and advances the cursor by exactly 4 bytes — even
for a strictly positive header, whose payload bytes stay unconsumed —
and no `ReadString` outcome is ever a malformed-header error: its only
error kind is `endOfBuffer` (truncation). -/
theorem readString_nonneg_empty :
    (∀ r : Reader, r.pos + 4 ≤ r.buffer.length → 0 ≤ toSigned 32 (r.uintLE 4) →
      r.readString = (.ok [], { r with pos := r.pos + 4 })) ∧
    (∀ (r : Reader) (e : GoErr), (r.readString).1 = .error e → e = .endOfBuffer) := by
  constructor
  · intro r h4 hnn
    unfold Reader.readString Reader.readInt32
    simp [h4, hnn]
  · intro r e h
    unfold Reader.readString at h
    split at h
    · rename_i e1 r1 heq
      simp only [Except.error.injEq] at h
      subst h
      exact (readInt32_error (by rw [heq])).1
    · rename_i byteCount r1 heq
      split at h
      · simp at h
      · split at h
        · rename_i e1 r2 heq2
          simp only [Except.error.injEq] at h
          subst h
          exact (readInt32_error (by rw [heq2])).1
        · simp only [gt_iff_lt] at h
          split at h <;> simp_all

/-- Witness for C10: buffer `[2,0,0,0,9,9]` — header `2` (non-negative),
result is the empty string, cursor ends at 4, the two payload bytes are
left unconsumed. -/
theorem readString_nonneg_empty_witness :
    Reader.readString { buffer := [2, 0, 0, 0, 9, 9], pos := 0 } =
      (.ok [], { buffer := [2, 0, 0, 0, 9, 9], pos := 4 }) :=
  readString_nonneg_empty.1 { buffer := [2, 0, 0, 0, 9, 9], pos := 0 }
    (by decide) (by decide)

/-- **C9**: `Serialize(int32(300))` is exactly `2C 01 00 00`,
`Serialize("")` is exactly `00 00 00 00`, and `Serialize([]byte(nil))` is
exactly `FF FF FF FF` — no additional framing or version bytes. -/
theorem serialize_wire_examples :
    SerializeGo (.int32 300) = .ok [0x2C, 0x01, 0x00, 0x00] ∧
    SerializeGo (.str []) = .ok [0x00, 0x00, 0x00, 0x00] ∧
    SerializeGo (.bytes none) = .ok [0xFF, 0xFF, 0xFF, 0xFF] := by
  refine ⟨?_, ?_, ?_⟩ <;>
    simp [SerializeGo, serializeCore, writeValue, writeBody, Writer.checkDepth,
      Writer.endCheckDepth, MaxDepth, Writer.new, Writer.writeInt32, Writer.writeStr,
      Writer.writeBytes, natToLE, wrap, NullCollection]

/-- **C8 counterexample**: the reader does NOT reject the reserved
object-header range 250–254: byte `250` is returned as an accepted member
count (`isNull = false`, no error), and a struct deserialization meeting
it fails — when it fails at all — with the generic field-count mismatch,
not an UnsupportedTag error. -/
theorem readObjectHeader_accepts_reserved :
    Reader.readObjectHeader { buffer := [250], pos := 0 } =
      (.ok (250, false), { buffer := [250], pos := 1 }) ∧
    deserializeStruct { buffer := [250], pos := 0 } [.int8] =
      (.error .fieldCountMismatch, { buffer := [250], pos := 1 }) := by
  constructor
  · rfl
  · simp [deserializeStruct, Reader.readObjectHeader, Reader.readByte, NullObject]

/-- **C8 amended**: `ReadObjectHeader` treats every byte other than `255`
— the reserved range 250–254 included — as a member count; only `255` is
the null-object marker. A struct deserialization that meets a reserved
tag fails only via the generic field-count comparison (when the count
differs from the schema's), with a field-count-mismatch error, never with
a dedicated UnsupportedTag error. -/
theorem readObjectHeader_range :
    (∀ (r : Reader) (b : Nat) (rest : List Nat),
      r.buffer.drop r.pos = b :: rest → b ≠ 255 →
      r.readObjectHeader = (.ok (b, false), { r with pos := r.pos + 1 })) ∧
    (∀ (r : Reader) (rest : List Nat),
      r.buffer.drop r.pos = 255 :: rest →
      r.readObjectHeader = (.ok (0, true), { r with pos := r.pos + 1 })) ∧
    (∀ (fields : List Ty) (r : Reader) (b : Nat) (rest : List Nat),
      r.buffer.drop r.pos = b :: rest → b ≠ 255 → b ≠ fields.length →
      deserializeStruct r fields =
        (.error .fieldCountMismatch, { r with pos := r.pos + 1 })) := by
  have hbyte : ∀ (r : Reader) (b : Nat) (rest : List Nat),
      r.buffer.drop r.pos = b :: rest →
      r.readByte = (.ok b, { r with pos := r.pos + 1 }) := by
    intro r b rest h
    have hlt : r.pos < r.buffer.length := by
      by_contra hge
      rw [List.drop_eq_nil_of_le (by omega)] at h
      exact List.noConfusion h
    have hget : r.buffer[r.pos]? = some b := by
      have h0 : (r.buffer.drop r.pos)[0]? = some b := by rw [h]; simp
      rwa [List.getElem?_drop, Nat.add_zero] at h0
    unfold Reader.readByte
    simp [hlt, List.getD_eq_getElem?_getD, hget]
  refine ⟨?_, ?_, ?_⟩
  · intro r b rest h hb
    unfold Reader.readObjectHeader
    rw [hbyte r b rest h]
    simp [NullObject, hb]
  · intro r rest h
    unfold Reader.readObjectHeader
    rw [hbyte r 255 rest h]
    simp [NullObject]
  · intro fields r b rest h hb hcount
    unfold deserializeStruct Reader.readObjectHeader
    rw [hbyte r b rest h]
    simp [NullObject, hb, hcount]

/-- Witness for the C8 amended theorem: byte `250` on the wire is
accepted as member count 250, and against a 3-field schema the struct
read fails with the field-count mismatch, not an unsupported-tag error. -/
theorem readObjectHeader_range_witness :
    Reader.readObjectHeader { buffer := [250], pos := 0 } =
      (.ok (250, false), { buffer := [250], pos := 1 }) ∧
    deserializeStruct { buffer := [250], pos := 0 } [.int8, .int8, .int8] =
      (.error .fieldCountMismatch, { buffer := [250], pos := 1 }) :=
  ⟨readObjectHeader_range.1 { buffer := [250], pos := 0 } 250 [] rfl (by decide),
   readObjectHeader_range.2.2 [.int8, .int8, .int8] { buffer := [250], pos := 0 } 250 [] rfl
     (by decide) (by decide)⟩

/-- **C4 counterexample**: a failing read CAN mutate the cursor:
`ReadBytes` on `[5,0,0,0]` (header promises 5 bytes, none available)
fails, yet leaves the cursor at 4 — the header was consumed. -/
theorem readBytes_failure_moves_cursor :
    Reader.readBytes { buffer := [5, 0, 0, 0], pos := 0 } =
      (.error .endOfBuffer, { buffer := [5, 0, 0, 0], pos := 4 }) ∧
    ({ buffer := [5, 0, 0, 0], pos := 4 } : Reader) ≠ { buffer := [5, 0, 0, 0], pos := 0 } := by
  constructor
  · rfl
  · decide

/-- **C4 amended**: the fixed-width reads (`ReadByte`, `ReadInt16/32/64`,
`ReadFloat32/64`, `ReadBool`, `ReadCollectionHeader`, `ReadObjectHeader`)
either advance the cursor by exactly the bytes consumed or fail with the
cursor unchanged; the composite reads `ReadBytes` and `ReadString` also
advance by exactly what they consume on success, but on failure may leave
the cursor past their already-consumed leading headers (4 bytes, or 8 for
a non-empty string) rather than restoring it. -/
theorem read_cursor_discipline :
    (∀ (r : Reader) (e : GoErr), (r.readByte).1 = .error e → (r.readByte).2 = r) ∧
    (∀ (r : Reader) (b : Nat), (r.readByte).1 = .ok b →
      (r.readByte).2 = { r with pos := r.pos + 1 }) ∧
    (∀ (r : Reader) (e : GoErr), (r.readInt16).1 = .error e → (r.readInt16).2 = r) ∧
    (∀ (r : Reader) (v : Int), (r.readInt16).1 = .ok v →
      (r.readInt16).2 = { r with pos := r.pos + 2 }) ∧
    (∀ (r : Reader) (e : GoErr), (r.readInt32).1 = .error e → (r.readInt32).2 = r) ∧
    (∀ (r : Reader) (v : Int), (r.readInt32).1 = .ok v →
      (r.readInt32).2 = { r with pos := r.pos + 4 }) ∧
    (∀ (r : Reader) (e : GoErr), (r.readInt64).1 = .error e → (r.readInt64).2 = r) ∧
    (∀ (r : Reader) (v : Int), (r.readInt64).1 = .ok v →
      (r.readInt64).2 = { r with pos := r.pos + 8 }) ∧
    (∀ (r : Reader) (e : GoErr), (r.readFloat32).1 = .error e → (r.readFloat32).2 = r) ∧
    (∀ (r : Reader) (v : Nat), (r.readFloat32).1 = .ok v →
      (r.readFloat32).2 = { r with pos := r.pos + 4 }) ∧
    (∀ (r : Reader) (e : GoErr), (r.readFloat64).1 = .error e → (r.readFloat64).2 = r) ∧
    (∀ (r : Reader) (v : Nat), (r.readFloat64).1 = .ok v →
      (r.readFloat64).2 = { r with pos := r.pos + 8 }) ∧
    (∀ (r : Reader) (e : GoErr), (r.readBool).1 = .error e → (r.readBool).2 = r) ∧
    (∀ (r : Reader) (e : GoErr),
      (r.readCollectionHeader).1 = .error e → (r.readCollectionHeader).2 = r) ∧
    (∀ (r : Reader) (e : GoErr),
      (r.readObjectHeader).1 = .error e → (r.readObjectHeader).2 = r) ∧
    (∀ (r : Reader) (e : GoErr), (r.readBytes).1 = .error e →
      (r.readBytes).2 = r ∨ (r.readBytes).2 = { r with pos := r.pos + 4 }) ∧
    (∀ (r : Reader) (data : Option (List Nat)), (r.readBytes).1 = .ok data →
      (r.readBytes).2 = { r with pos := r.pos + 4 + (data.getD []).length }) ∧
    (∀ (r : Reader) (e : GoErr), (r.readString).1 = .error e →
      (r.readString).2 = r ∨ (r.readString).2 = { r with pos := r.pos + 4 } ∨
        (r.readString).2 = { r with pos := r.pos + 8 }) ∧
    (∀ (r : Reader) (s : List Nat), (r.readString).1 = .ok s →
      ((r.readString).2 = { r with pos := r.pos + 4 } ∧ s = []) ∨
        (r.readString).2 = { r with pos := r.pos + 8 + s.length }) := by
  refine ⟨?_, ?_, ?_, ?_, ?_, ?_, ?_, ?_, ?_, ?_, ?_, ?_, ?_, ?_, ?_, ?_, ?_, ?_, ?_⟩
  · intro r e h
    rcases readByte_split r with hI | hI <;> rw [hI] at h ⊢ <;> simp_all
  · intro r b h
    rcases readByte_split r with hI | hI <;> rw [hI] at h ⊢ <;> simp_all
  · intro r e h
    rcases readInt16_split r with hI | hI <;> rw [hI] at h ⊢ <;> simp_all
  · intro r v h
    rcases readInt16_split r with hI | hI <;> rw [hI] at h ⊢ <;> simp_all
  · intro r e h
    rcases readInt32_split r with hI | hI <;> rw [hI] at h ⊢ <;> simp_all
  · intro r v h
    rcases readInt32_split r with hI | hI <;> rw [hI] at h ⊢ <;> simp_all
  · intro r e h
    rcases readInt64_split r with hI | hI <;> rw [hI] at h ⊢ <;> simp_all
  · intro r v h
    rcases readInt64_split r with hI | hI <;> rw [hI] at h ⊢ <;> simp_all
  · intro r e h
    rcases readFloat32_split r with hI | hI <;> rw [hI] at h ⊢ <;> simp_all
  · intro r v h
    rcases readFloat32_split r with hI | hI <;> rw [hI] at h ⊢ <;> simp_all
  · intro r e h
    rcases readFloat64_split r with hI | hI <;> rw [hI] at h ⊢ <;> simp_all
  · intro r v h
    rcases readFloat64_split r with hI | hI <;> rw [hI] at h ⊢ <;> simp_all
  · intro r e h
    unfold Reader.readBool at h ⊢
    rcases readByte_split r with hI | hI <;> rw [hI] at h ⊢ <;> simp_all
  · intro r e h
    unfold Reader.readCollectionHeader at h ⊢
    rcases readInt32_split r with hI | hI <;> rw [hI] at h ⊢
    all_goals first
      | (dsimp only at h; split at h <;> simp_all)
      | simp_all
  · intro r e h
    unfold Reader.readObjectHeader at h ⊢
    rcases readByte_split r with hI | hI <;> rw [hI] at h ⊢
    all_goals first
      | (dsimp only at h; split at h <;> simp_all)
      | simp_all
  · intro r e h
    unfold Reader.readBytes at h ⊢
    rcases readInt32_split r with hI | hI <;> rw [hI] at h ⊢
    all_goals dsimp only at h ⊢
    all_goals try simp_all
    by_cases hN : toSigned 32 (r.uintLE 4) = NullCollection
    · rw [if_pos hN] at h
      exact absurd h (by simp)
    · rw [if_neg hN] at h ⊢
      by_cases hneg : toSigned 32 (r.uintLE 4) < 0
      · rw [if_pos hneg] at h ⊢
        exact Or.inr rfl
      · rw [if_neg hneg] at h ⊢
        by_cases hfit : ((r.buffer.length - (r.pos + 4) : Nat) : Int) < toSigned 32 (r.uintLE 4)
        · rw [if_pos hfit] at h ⊢
          exact Or.inr rfl
        · rw [if_neg hfit] at h
          exact absurd h (by simp)
  · intro r data h
    unfold Reader.readBytes at h ⊢
    rcases readInt32_split r with hI | hI <;> rw [hI] at h ⊢
    · simp_all
    · dsimp only at h ⊢
      split at h
      · rename_i hN
        rw [if_pos hN]
        simp only [Except.ok.injEq] at h
        subst h
        simp
      · rename_i hN
        rw [if_neg hN]
        split at h
        · simp_all
        · rename_i hneg
          rw [if_neg hneg]
          split at h
          · simp_all
          · rename_i hfit
            rw [if_neg hfit]
            simp only [Except.ok.injEq] at h
            subst h
            simp only [Option.getD_some, List.length_take, List.length_drop]
            simp only [not_lt] at hfit
            congr 1
            omega
  · intro r e h
    unfold Reader.readString at h ⊢
    rcases readInt32_split r with hI | hI <;> rw [hI] at h ⊢
    · simp_all
    · dsimp only at h ⊢
      split at h
      · simp_all
      · rename_i hbc
        rw [if_neg hbc]
        rcases readInt32_split { r with pos := r.pos + 4 } with hJ | hJ <;> rw [hJ] at h ⊢
        · exact Or.inr (Or.inl (by simp_all))
        · dsimp only at h ⊢
          split at h
          · rename_i hfit
            rw [if_pos hfit]
            right
            right
            simp [Nat.add_assoc]
          · simp_all
  · intro r sres h
    unfold Reader.readString at h ⊢
    rcases readInt32_split r with hI | hI <;> rw [hI] at h ⊢
    · simp_all
    · dsimp only at h ⊢
      split at h
      · rename_i hbc
        rw [if_pos hbc]
        simp only [Except.ok.injEq] at h
        subst h
        exact Or.inl ⟨rfl, rfl⟩
      · rename_i hbc
        rw [if_neg hbc]
        rcases readInt32_split { r with pos := r.pos + 4 } with hJ | hJ <;> rw [hJ] at h ⊢
        · simp_all
        · dsimp only at h ⊢
          split at h
          · simp_all
          · rename_i hfit
            rw [if_neg hfit]
            simp only [Except.ok.injEq] at h
            subst h
            right
            simp only [List.length_take, List.length_drop]
            simp only [gt_iff_lt, not_lt] at hfit
            congr 1
            omega

/-- **C3 counterexample**: a negative non-sentinel collection header is
NOT rejected: deserializing a `[2]int8` array from header `-2`
(`FE FF FF FF`) SUCCEEDS (zero iterations), with no MalformedHeader
error. -/
theorem negative_header_array_accepted :
    DeserializeGo [254, 255, 255, 255] (.array 2 .int8) =
      .ok (.array .int8 [.int8 0, .int8 0]) := by
  simp [DeserializeGo, readValue, readList, Reader.readCollectionHeader, Reader.readInt32,
    Reader.uintLE, leToNat, toSigned, NullCollection, zeroVal]

/-- **C3 amended**: only `ReadBytes` (byte sequences) rejects a negative
non-sentinel length, with the invalid-length error; `ReadCollectionHeader`
passes every non-sentinel value through as an accepted count, after which
a slice read panics inside `reflect.MakeSlice`, an array read succeeds
vacuously (zero loop iterations, array untouched), and a map read
succeeds with an empty map. -/
theorem negative_header_handling :
    ∀ (r : Reader) (n : Int), (r.readInt32).1 = .ok n → n < 0 → n ≠ NullCollection →
      r.readBytes = (.error .invalidLength, { r with pos := r.pos + 4 }) ∧
      r.readCollectionHeader = (.ok (n, false), { r with pos := r.pos + 4 }) ∧
      (∀ t : Ty, readValue r (.slice t) = (.error .runtimePanic, { r with pos := r.pos + 4 })) ∧
      (∀ (nn : Nat) (t : Ty), readValue r (.array nn t) =
        (.ok (.array t (List.replicate nn (zeroVal t))), { r with pos := r.pos + 4 })) ∧
      (∀ kt vt : Ty, readValue r (.map kt vt) =
        (.ok (.map kt vt (some [])), { r with pos := r.pos + 4 })) := by
  intro r n hok hneg hsent
  rcases readInt32_split r with hI | hI
  · rw [hI] at hok
    exact absurd hok (by simp)
  · rw [hI] at hok
    simp only [Except.ok.injEq] at hok
    rw [hok] at hI
    have hch : r.readCollectionHeader = (.ok (n, false), { r with pos := r.pos + 4 }) := by
      unfold Reader.readCollectionHeader
      rw [hI]
      dsimp only
      rw [if_neg hsent]
    have h0 : n.toNat = 0 := Int.toNat_eq_zero.mpr (le_of_lt hneg)
    refine ⟨?_, hch, ?_, ?_, ?_⟩
    · unfold Reader.readBytes
      rw [hI]
      dsimp only
      rw [if_neg hsent, if_pos hneg]
    · intro t
      rw [readValue]
      rw [hch]
      dsimp only
      rw [if_pos hneg]
    · intro nn t
      rw [readValue]
      rw [hch]
      dsimp only
      rw [h0]
      simp only [Nat.zero_min, readList]
      rw [if_neg (by omega : ¬ ((nn : Int) < n))]
      simp
    · intro kt vt
      rw [readValue]
      rw [hch]
      dsimp only
      rw [h0]
      simp only [readEntries]

/-- Witness for the C3 amended theorem at header `FE FF FF FF` (= −2):
byte-sequence read rejects with the invalid-length error, the collection
header hands −2 through as an accepted count, and a slice read then
panics in `reflect.MakeSlice`. -/
theorem negative_header_handling_witness :
    Reader.readBytes { buffer := [254, 255, 255, 255], pos := 0 } =
      (.error .invalidLength, { buffer := [254, 255, 255, 255], pos := 4 }) ∧
    Reader.readCollectionHeader { buffer := [254, 255, 255, 255], pos := 0 } =
      (.ok (-2, false), { buffer := [254, 255, 255, 255], pos := 4 }) ∧
    readValue { buffer := [254, 255, 255, 255], pos := 0 } (.slice .int8) =
      (.error .runtimePanic, { buffer := [254, 255, 255, 255], pos := 4 }) := by
  have h := negative_header_handling { buffer := [254, 255, 255, 255], pos := 0 } (-2)
    (by simp [Reader.readInt32, Reader.uintLE, leToNat, toSigned]) (by decide) (by decide)
  exact ⟨h.1, h.2.1, h.2.2.1 .int8⟩

/-- **C2** (code bug): when the serialized value implements `Formatter`,
`Serialize` runs the custom `Serialize(writer)` but then FALLS THROUGH to
the reflective walker on the same writer (the `Formatter` branch has no
early return, unlike `Deserialize`): for `&CustomFormat{IntValue: 42,
StrValue: "custom"}` (custom logic: `WriteInt32(42); WriteString("custom")`)
the output is the 18 custom bytes followed by 23 reflective struct bytes
— not exclusively the custom formatter's bytes. -/
theorem formatter_output_not_exclusive :
    serializeWithFormatter
        (fun w => (none, (w.writeInt32 42).writeStr [99, 117, 115, 116, 111, 109]))
        (.ptr (.struct [.int64, .str])
          (some (.struct [.int64 42, .str [99, 117, 115, 116, 111, 109]]))) =
      .ok ([42, 0, 0, 0, 249, 255, 255, 255, 6, 0, 0, 0, 99, 117, 115, 116, 111, 109] ++
           [2, 42, 0, 0, 0, 0, 0, 0, 0, 249, 255, 255, 255, 6, 0, 0, 0,
            99, 117, 115, 116, 111, 109]) ∧
    ([2, 42, 0, 0, 0, 0, 0, 0, 0, 249, 255, 255, 255, 6, 0, 0, 0,
      99, 117, 115, 116, 111, 109] : List Nat) ≠ [] := by
  constructor
  · simp [serializeWithFormatter, serializeStruct, writeList, writeValue, writeBody,
      Writer.checkDepth, Writer.endCheckDepth, MaxDepth, Writer.new, Writer.writeObjectHeader,
      Writer.writeByte, Writer.writeInt32, Writer.writeInt64, Writer.writeStr,
      natToLE, wrap, toSigned, leToNat]
  · decide

/-- The depth identity behind C7: `writeValue` restores the entry depth on
every exit — except when the failure IS the depth check, whose early
return happens before the deferred `EndCheckDepth` is installed, leaving
the counter at entry + 1. -/
theorem writeValue_depth_balance :
    ∀ (v : Value) (w : Writer),
      (writeValue w v).2.depth =
        (if (writeValue w v).1 = some .depthExceeded then w.depth + 1 else w.depth) := by
  intro v w
  apply writeValue.induct
    (fun w v => (writeValue w v).2.depth =
      if (writeValue w v).1 = some .depthExceeded then w.depth + 1 else w.depth)
    (fun w v => (writeBody w v).2.depth =
      if (writeBody w v).1 = some .depthExceeded then w.depth + 1 else w.depth)
    (fun w fs => (serializeStruct w fs).2.depth =
      if (serializeStruct w fs).1 = some .depthExceeded then w.depth + 1 else w.depth)
    (fun w vs => (writeList w vs).2.depth =
      if (writeList w vs).1 = some .depthExceeded then w.depth + 1 else w.depth)
    (fun w es => (writeEntries w es).2.depth =
      if (writeEntries w es).1 = some .depthExceeded then w.depth + 1 else w.depth)
  case case1 =>
    intro w v e w1 hx
    simp only [writeValue]
    rw [hx]
    dsimp only
    unfold Writer.checkDepth at hx
    dsimp only at hx
    split at hx
    · injection hx with h1 h2
      injection h1 with h1
      subst h1
      subst h2
      simp
    · exact absurd hx (by simp)
  case case2 =>
    intro w v w1 hx r w2 hb ih
    simp only [writeValue]
    rw [hx]
    dsimp only
    rw [hb] at ih
    rw [hb]
    dsimp only
    unfold Writer.endCheckDepth
    dsimp only
    rw [ih]
    unfold Writer.checkDepth at hx
    dsimp only at hx
    split at hx
    · exact absurd hx (by simp)
    · injection hx with h1 h2
      subst h2
      split <;> simp
  case case21 =>
    intro w fields w1 hx ih
    simp only [serializeStruct]
    rw [hx]
    dsimp only
    unfold Writer.writeObjectHeader at hx
    split at hx
    · injection hx with h1 h2
      subst h2
      rw [ih]
      simp [Writer.writeByte]
    · split at hx
      · injection hx with h1 h2
        subst h2
        rw [ih]
        simp [Writer.writeByte]
      · exact absurd hx (by simp)
  all_goals intros
  all_goals simp_all [writeValue, writeBody, serializeStruct, writeList, writeEntries,
    Writer.checkDepth, Writer.endCheckDepth, Writer.writeBool, Writer.writeByte,
    Writer.writeInt16, Writer.writeInt32, Writer.writeInt64, Writer.writeFloat32,
    Writer.writeFloat64, Writer.writeStr, Writer.writeBytes, Writer.writeCollectionHeader,
    Writer.writeNullCollectionHeader, Writer.writeObjectHeader, MaxDepth]
  all_goals first
    | rfl
    | (split <;> rfl)
    | (split_ifs at * <;> simp_all <;> omega)
    | (split at * <;> simp_all)

/-- Any pointer chain long enough that some `writeValue` enters at depth
`MaxDepth` fails the depth check there, returning before the deferred
decrement is installed: the final depth is the entry depth plus one. -/
theorem writeValue_nestPtr_depthExceeded :
    ∀ (k : Nat) (buf : List Nat) (d : Nat), MaxDepth < d + k + 1 →
      writeValue { buffer := buf, depth := d } (nestPtr k) =
        (some .depthExceeded, { buffer := buf, depth := d + 1 }) := by
  intro k
  induction k with
  | zero =>
    intro buf d h
    simp only [nestPtr, writeValue, Writer.checkDepth]
    rw [if_pos (show MaxDepth < ({ buffer := buf, depth := d } : Writer).depth + 1 by change MaxDepth < d + 1; omega)]
  | succ k ih =>
    intro buf d h
    simp only [nestPtr, writeValue, Writer.checkDepth]
    by_cases hd : MaxDepth < d + 1
    · rw [if_pos (show MaxDepth < ({ buffer := buf, depth := d } : Writer).depth + 1 by change MaxDepth < d + 1; omega)]
    · rw [if_neg (show ¬ MaxDepth < ({ buffer := buf, depth := d } : Writer).depth + 1 by change ¬ MaxDepth < d + 1; omega)]
      dsimp only
      simp only [writeBody]
      rw [ih buf (d + 1) (by omega)]
      simp [Writer.endCheckDepth]

/-- **C7 counterexample**: for a 1001-deep pointer chain, `Serialize`
fails with the depth error but the writer's depth counter ends at 1, not
0 — the depth-check failure exit skipped its decrement (and the counter
stood at `MaxDepth + 1 = 1001 > MaxDepth` at that point). -/
theorem serialize_depth_left_unbalanced :
    serializeCore (nestPtr 1001) = (some .depthExceeded, { buffer := [], depth := 1 }) ∧
    (1 : Nat) ≠ 0 := by
  refine ⟨?_, by decide⟩
  have e1 : nestPtr 1001 = .ptr .int8 (some (nestPtr 1000)) := by
    conv_lhs => rw [show (1001 : Nat) = 1000 + 1 from rfl]
    rw [nestPtr]
  have e2 : nestPtr 1000 = .ptr .int8 (some (nestPtr 999)) := by
    conv_lhs => rw [show (1000 : Nat) = 999 + 1 from rfl]
    rw [nestPtr]
  have h := writeValue_nestPtr_depthExceeded 1000 [] 0 (by norm_num [MaxDepth])
  rw [e1]
  rw [e2] at h ⊢
  simp only [serializeCore]
  exact h

/-- Witness for the C4 amended theorem: a failing `ReadByte` on an empty
buffer leaves the cursor at 0, and a failing `ReadString` whose negative
header was consumed leaves the cursor at 4. -/
theorem read_cursor_discipline_witness :
    (Reader.readByte { buffer := [], pos := 0 }).2 = { buffer := [], pos := 0 } ∧
    ((Reader.readString { buffer := [253, 255, 255, 255], pos := 0 }).2 =
        { buffer := [253, 255, 255, 255], pos := 0 } ∨
      (Reader.readString { buffer := [253, 255, 255, 255], pos := 0 }).2 =
        { buffer := [253, 255, 255, 255], pos := 4 } ∨
      (Reader.readString { buffer := [253, 255, 255, 255], pos := 0 }).2 =
        { buffer := [253, 255, 255, 255], pos := 8 }) :=
  ⟨read_cursor_discipline.1 { buffer := [], pos := 0 } .endOfBuffer rfl,
   read_cursor_discipline.2.2.2.2.2.2.2.2.2.2.2.2.2.2.2.2.2.1
     { buffer := [253, 255, 255, 255], pos := 0 } .endOfBuffer rfl⟩

theorem scanWhileUpFuel_eq (p : Int → Bool) (i j : Int) :
    ∀ fuel, (j + 1 - i).toNat ≤ fuel → scanWhileUpFuel fuel p i j = scanWhileUp p i j := by
  apply scanWhileUp.induct p
    (motive := fun i j => ∀ fuel, (j + 1 - i).toNat ≤ fuel →
      scanWhileUpFuel fuel p i j = scanWhileUp p i j)
  · intro i j hc ih fuel hf
    cases fuel with
    | zero => omega
    | succ f =>
      simp only [scanWhileUpFuel]
      rw [if_pos hc, scanWhileUp, if_pos hc]
      exact ih f (by omega)
  · intro i j hc fuel hf
    cases fuel with
    | zero =>
      rw [scanWhileUp, if_neg hc]
      rfl
    | succ f =>
      simp only [scanWhileUpFuel]
      rw [if_neg hc, scanWhileUp, if_neg hc]

theorem scanWhileUpFuelX (p : Int → Bool) (i j : Int) :
    scanWhileUpFuel (j + 1 - i).toNat p i j = scanWhileUp p i j :=
  scanWhileUpFuel_eq p i j _ (le_refl _)

theorem scanWhileDownFuel_eq (p : Int → Bool) (i j : Int) :
    ∀ fuel, (j + 1 - i).toNat ≤ fuel → scanWhileDownFuel fuel p i j = scanWhileDown p i j := by
  apply scanWhileDown.induct p i
    (motive := fun j => ∀ fuel, (j + 1 - i).toNat ≤ fuel →
      scanWhileDownFuel fuel p i j = scanWhileDown p i j)
  · intro j hc ih fuel hf
    cases fuel with
    | zero => omega
    | succ f =>
      simp only [scanWhileDownFuel]
      rw [if_pos hc, scanWhileDown, if_pos hc]
      exact ih f (by omega)
  · intro j hc fuel hf
    cases fuel with
    | zero =>
      rw [scanWhileDown, if_neg hc]
      rfl
    | succ f =>
      simp only [scanWhileDownFuel]
      rw [if_neg hc, scanWhileDown, if_neg hc]

theorem scanWhileDownFuelX (p : Int → Bool) (i j : Int) :
    scanWhileDownFuel (j + 1 - i).toNat p i j = scanWhileDown p i j :=
  scanWhileDownFuel_eq p i j _ (le_refl _)



theorem partitionLoopFuel_eq (d : SortData) (a i j : Int) :
    ∀ fuel, (j + 1 - i).toNat ≤ fuel → partitionLoopFuel fuel d a i j = partitionLoop d a i j := by
  apply partitionLoop.induct
    (motive := fun d a i j => ∀ fuel, (j + 1 - i).toNat ≤ fuel →
      partitionLoopFuel fuel d a i j = partitionLoop d a i j)
  · intro d a i j i1 j1 hgt fuel hf
    simp only [i1, j1] at hgt
    rw [partitionLoop]
    simp only [dif_pos hgt]
    cases fuel with
    | zero =>
      have hij : j < i := by omega
      have hi1 : scanWhileUp (fun x => dLess d x a) i j = i := by
        rw [scanWhileUp, if_neg (fun hc => absurd hc.1 (by omega))]
      have hj1 : scanWhileDown (fun x => !dLess d x a) i j = j :=
        scanWhileDown_stuck _ i j hij
      rw [hi1, hj1]
      rfl
    | succ f =>
      simp only [partitionLoopFuel, scanWhileUpFuelX, scanWhileDownFuelX]
      rw [if_pos hgt]
  · intro d a i j i1 j1 hgt ih fuel hf
    simp only [i1, j1] at hgt ih
    have h1 := scanWhileUp_ge (fun x => dLess d x a) i j
    have h2 := scanWhileDown_le (fun x => !dLess d x a) (scanWhileUp (fun x => dLess d x a) i j) j
    cases fuel with
    | zero => omega
    | succ f =>
      simp only [partitionLoopFuel, scanWhileUpFuelX, scanWhileDownFuelX]
      rw [if_neg hgt, partitionLoop]
      simp only [dif_neg hgt]
      exact ih f (by omega)

theorem partitionLoopFuelX (d : SortData) (a i j : Int) :
    partitionLoopFuel (j + 1 - i).toNat d a i j = partitionLoop d a i j :=
  partitionLoopFuel_eq d a i j _ (le_refl _)

theorem partitionC_eq (d0 : SortData) (a b pivot : Int) :
    partitionC d0 a b pivot = partitionF d0 a b pivot := by
  simp only [partitionC, partitionF, scanWhileUpFuelX, scanWhileDownFuelX, partitionLoopFuelX]

theorem partitionEqualLoopFuel_eq (d : SortData) (a i j : Int) :
    ∀ fuel, (j + 1 - i).toNat ≤ fuel →
      partitionEqualLoopFuel fuel d a i j = partitionEqualLoop d a i j := by
  apply partitionEqualLoop.induct
    (motive := fun d a i j => ∀ fuel, (j + 1 - i).toNat ≤ fuel →
      partitionEqualLoopFuel fuel d a i j = partitionEqualLoop d a i j)
  · intro d a i j i1 j1 hgt fuel hf
    simp only [i1, j1] at hgt
    rw [partitionEqualLoop]
    simp only [dif_pos hgt]
    cases fuel with
    | zero =>
      have hij : j < i := by omega
      have hi1 : scanWhileUp (fun x => !dLess d a x) i j = i := by
        rw [scanWhileUp, if_neg (fun hc => absurd hc.1 (by omega))]
      rw [hi1]
      rfl
    | succ f =>
      simp only [partitionEqualLoopFuel, scanWhileUpFuelX, scanWhileDownFuelX]
      rw [if_pos hgt]
  · intro d a i j i1 j1 hgt ih fuel hf
    simp only [i1, j1] at hgt ih
    have h1 := scanWhileUp_ge (fun x => !dLess d a x) i j
    have h2 := scanWhileDown_le (fun x => dLess d a x) (scanWhileUp (fun x => !dLess d a x) i j) j
    cases fuel with
    | zero => omega
    | succ f =>
      simp only [partitionEqualLoopFuel, scanWhileUpFuelX, scanWhileDownFuelX]
      rw [if_neg hgt, partitionEqualLoop]
      simp only [dif_neg hgt]
      exact ih f (by omega)

theorem partitionEqualLoopFuelX (d : SortData) (a i j : Int) :
    partitionEqualLoopFuel (j + 1 - i).toNat d a i j = partitionEqualLoop d a i j :=
  partitionEqualLoopFuel_eq d a i j _ (le_refl _)

theorem partitionEqualC_eq (d0 : SortData) (a b pivot : Int) :
    partitionEqualC d0 a b pivot = partitionEqualF d0 a b pivot := by
  simp only [partitionEqualC, partitionEqualF, partitionEqualLoopFuelX]



theorem insertionInnerFuel_eq (a : Int) :
    ∀ fuel d j, (j - a).toNat ≤ fuel → insertionInnerFuel fuel d a j = insertionInner d a j := by
  intro fuel
  induction fuel with
  | zero =>
    intro d j hf
    rw [insertionInner, if_neg (fun hc => absurd hc.1 (by omega))]
    rfl
  | succ f ihf =>
    intro d j hf
    by_cases hc : a < j ∧ dLess d j (j - 1) = true
    · simp only [insertionInnerFuel]
      rw [if_pos hc, insertionInner, if_pos hc]
      exact ihf _ _ (by omega)
    · simp only [insertionInnerFuel]
      rw [if_neg hc, insertionInner, if_neg hc]

theorem insertionInnerFuelX (d : SortData) (a j : Int) :
    insertionInnerFuel (j - a).toNat d a j = insertionInner d a j :=
  insertionInnerFuel_eq a _ d j (le_refl _)

theorem insertionOuterFuel_eq (a b : Int) :
    ∀ fuel d i, (b - i).toNat ≤ fuel → insertionOuterFuel fuel d a b i = insertionOuter d a b i := by
  intro fuel
  induction fuel with
  | zero =>
    intro d i hf
    rw [insertionOuter, if_neg (by omega)]
    rfl
  | succ f ihf =>
    intro d i hf
    by_cases hc : i < b
    · simp only [insertionOuterFuel, insertionInnerFuelX]
      rw [if_pos hc, insertionOuter, if_pos hc]
      exact ihf _ _ (by omega)
    · simp only [insertionOuterFuel, insertionInnerFuelX]
      rw [if_neg hc, insertionOuter, if_neg hc]

theorem insertionOuterFuelX (d : SortData) (a b i : Int) :
    insertionOuterFuel (b - i).toNat d a b i = insertionOuter d a b i :=
  insertionOuterFuel_eq a b _ d i (le_refl _)

theorem insertionSortC_eq (d : SortData) (a b : Int) :
    insertionSortC d a b = insertionSortF d a b := by
  simp only [insertionSortC, insertionSortF, insertionOuterFuelX]

theorem siftDownFFuel_eq (first : Int) :
    ∀ fuel d (lo : Nat) (hi : Int), (hi - (lo : Int)).toNat ≤ fuel →
      siftDownFFuel fuel d lo hi first = siftDownF d lo hi first := by
  intro fuel
  induction fuel with
  | zero =>
    intro d lo hi hf
    rw [siftDownF]
    simp only [dif_pos (show ((2 * lo + 1 : Nat) : Int) ≥ hi by push_cast; omega)]
    rfl
  | succ f ihf =>
    intro d lo hi hf
    rw [siftDownF]
    simp only [siftDownFFuel]
    by_cases h1 : ((2 * lo + 1 : Nat) : Int) ≥ hi
    · rw [if_pos h1]
      simp only [dif_pos h1]
    · rw [if_neg h1]
      simp only [dif_neg h1]
      have h1' : (2 * lo + 1 : Int) < hi := by push_cast at h1; omega
      split_ifs with h2 h3 h4
      · apply ihf
        push_cast
        omega
      · rfl
      · apply ihf
        push_cast
        omega
      · rfl

theorem siftDownFFuelX (d : SortData) (lo : Nat) (hi first : Int) :
    siftDownFFuel (hi - (lo : Int)).toNat d lo hi first = siftDownF d lo hi first :=
  siftDownFFuel_eq first _ d lo hi (le_refl _)

theorem heapBuildFuel_eq (hi first : Int) :
    ∀ fuel d i, (i + 1).toNat ≤ fuel → heapBuildFuel fuel d hi first i = heapBuild d hi first i := by
  intro fuel
  induction fuel with
  | zero =>
    intro d i hf
    rw [heapBuild, if_neg (by omega)]
    rfl
  | succ f ihf =>
    intro d i hf
    by_cases hc : i ≥ 0
    · simp only [heapBuildFuel, siftDownFFuelX]
      rw [if_pos hc, heapBuild, if_pos hc]
      exact ihf _ _ (by omega)
    · simp only [heapBuildFuel, siftDownFFuelX]
      rw [if_neg hc, heapBuild, if_neg hc]

theorem heapPopFuel_eq (first : Int) :
    ∀ fuel d i, (i + 1).toNat ≤ fuel → heapPopFuel fuel d first i = heapPop d first i := by
  intro fuel
  induction fuel with
  | zero =>
    intro d i hf
    rw [heapPop, if_neg (by omega)]
    rfl
  | succ f ihf =>
    intro d i hf
    by_cases hc : i ≥ 0
    · simp only [heapPopFuel, siftDownFFuelX]
      rw [if_pos hc, heapPop, if_pos hc]
      exact ihf _ _ (by omega)
    · simp only [heapPopFuel, siftDownFFuelX]
      rw [if_neg hc, heapPop, if_neg hc]

theorem heapSortC_eq (d : SortData) (a b : Int) :
    heapSortC d a b = heapSortF d a b := by
  simp only [heapSortC, heapSortF]
  rw [heapBuildFuel_eq _ _ _ _ _ (le_refl _), heapPopFuel_eq _ _ _ _ (le_refl _)]

theorem reverseRangeFFuel_eq :
    ∀ fuel d (i j : Int), (j - i).toNat ≤ fuel → reverseRangeFFuel fuel d i j = reverseRangeF d i j := by
  intro fuel
  induction fuel with
  | zero =>
    intro d i j hf
    rw [reverseRangeF, if_neg (by omega)]
    rfl
  | succ f ihf =>
    intro d i j hf
    by_cases hc : i < j
    · simp only [reverseRangeFFuel]
      rw [if_pos hc, reverseRangeF, if_pos hc]
      exact ihf _ _ _ (by omega)
    · simp only [reverseRangeFFuel]
      rw [if_neg hc, reverseRangeF, if_neg hc]

theorem reverseRangeC_eq (d : SortData) (a b : Int) :
    reverseRangeC d a b = reverseRangeAB d a b := by
  simp only [reverseRangeC, reverseRangeAB]
  exact reverseRangeFFuel_eq _ d a (b - 1) (le_refl _)

theorem shiftLeftLoopFuel_eq :
    ∀ fuel d (j : Int), j.toNat ≤ fuel → shiftLeftLoopFuel fuel d j = shiftLeftLoop d j := by
  intro fuel
  induction fuel with
  | zero =>
    intro d j hf
    rw [shiftLeftLoop, if_neg (fun hc => absurd hc.1 (by omega))]
    rfl
  | succ f ihf =>
    intro d j hf
    by_cases hc : 1 ≤ j ∧ dLess d j (j - 1) = true
    · simp only [shiftLeftLoopFuel]
      rw [if_pos hc, shiftLeftLoop, if_pos hc]
      exact ihf _ _ (by omega)
    · simp only [shiftLeftLoopFuel]
      rw [if_neg hc, shiftLeftLoop, if_neg hc]

theorem shiftLeftLoopFuelX (d : SortData) (j : Int) :
    shiftLeftLoopFuel j.toNat d j = shiftLeftLoop d j :=
  shiftLeftLoopFuel_eq _ d j (le_refl _)

theorem shiftRightLoopFuel_eq (b : Int) :
    ∀ fuel d (j : Int), (b - j).toNat ≤ fuel → shiftRightLoopFuel fuel d b j = shiftRightLoop d b j := by
  intro fuel
  induction fuel with
  | zero =>
    intro d j hf
    rw [shiftRightLoop, if_neg (fun hc => absurd hc.1 (by omega))]
    rfl
  | succ f ihf =>
    intro d j hf
    by_cases hc : j < b ∧ dLess d j (j - 1) = true
    · simp only [shiftRightLoopFuel]
      rw [if_pos hc, shiftRightLoop, if_pos hc]
      exact ihf _ _ (by omega)
    · simp only [shiftRightLoopFuel]
      rw [if_neg hc, shiftRightLoop, if_neg hc]

theorem shiftRightLoopFuelX (d : SortData) (b j : Int) :
    shiftRightLoopFuel (b - j).toNat d b j = shiftRightLoop d b j :=
  shiftRightLoopFuel_eq b _ d j (le_refl _)



theorem partialInsertionSortLoopFuel_eq (a b : Int) :
    ∀ fuel d (i : Int) (steps : Nat), 5 - steps ≤ fuel →
      partialInsertionSortLoopFuel fuel d a b i steps = partialInsertionSortLoop d a b i steps := by
  intro fuel
  induction fuel with
  | zero =>
    intro d i steps hf
    rw [partialInsertionSortLoop, if_pos (by omega : steps ≥ 5)]
    rfl
  | succ f ihf =>
    intro d i steps hf
    rw [partialInsertionSortLoop]
    simp only [partialInsertionSortLoopFuel, scanWhileUpFuelX, shiftLeftLoopFuelX,
      shiftRightLoopFuelX]
    by_cases h5 : steps ≥ 5
    · rw [if_pos h5, if_pos h5]
    · rw [if_neg h5, if_neg h5]
      by_cases hib : scanWhileUp (fun x => !dLess d x (x - 1)) i (b - 1) = b
      · rw [if_pos hib, if_pos hib]
      · rw [if_neg hib, if_neg hib]
        by_cases h50 : b - a < 50
        · rw [if_pos h50, if_pos h50]
        · rw [if_neg h50, if_neg h50]
          exact ihf _ _ _ (by omega)

theorem partialInsertionSortC_eq (d : SortData) (a b : Int) :
    partialInsertionSortC d a b = partialInsertionSortF d a b := by
  simp only [partialInsertionSortC, partialInsertionSortF]
  exact partialInsertionSortLoopFuel_eq a b _ d (a + 1) 0 (le_refl _)

theorem breakPatternsLoopFuel_eq (a length : Int) (modulus : Nat) :
    ∀ fuel d (rng : Nat) (idx stop : Int), (stop + 1 - idx).toNat ≤ fuel →
      breakPatternsLoopFuel fuel d a length rng modulus idx stop =
        breakPatternsLoop d a length rng modulus idx stop := by
  intro fuel
  induction fuel with
  | zero =>
    intro d rng idx stop hf
    rw [breakPatternsLoop, if_neg (by omega)]
    rfl
  | succ f ihf =>
    intro d rng idx stop hf
    by_cases hc : idx ≤ stop
    · simp only [breakPatternsLoopFuel]
      rw [if_pos hc, breakPatternsLoop, if_pos hc]
      exact ihf _ _ _ _ (by omega)
    · simp only [breakPatternsLoopFuel]
      rw [if_neg hc, breakPatternsLoop, if_neg hc]

theorem log2Fuel_eq : ∀ fuel n, n ≤ fuel → log2Fuel fuel n = Nat.log2 n := by
  intro fuel
  induction fuel with
  | zero =>
    intro n hf
    rw [Nat.log2]
    rw [if_neg (by omega)]
    rfl
  | succ f ihf =>
    intro n hf
    by_cases hc : n ≥ 2
    · simp only [log2Fuel]
      rw [if_pos hc, Nat.log2, if_pos hc, ihf _ (by omega)]
    · simp only [log2Fuel]
      rw [if_neg hc, Nat.log2, if_neg hc]

theorem nextPowerOfTwoC_eq (length : Nat) : nextPowerOfTwoC length = nextPowerOfTwo length := by
  simp only [nextPowerOfTwoC, nextPowerOfTwo]
  by_cases h : length = 0
  · rw [if_pos h, if_pos h]
  · rw [if_neg h, if_neg h, log2Fuel_eq length length (le_refl _)]

theorem breakPatternsC_eq (d : SortData) (a b : Int) :
    breakPatternsC d a b = breakPatternsF d a b := by
  simp only [breakPatternsC, breakPatternsF, nextPowerOfTwoC_eq]
  by_cases h : b - a ≥ 8
  · rw [if_pos h, if_pos h]
    exact breakPatternsLoopFuel_eq _ _ _ _ _ _ _ _ (le_refl _)
  · rw [if_neg h, if_neg h]



set_option maxHeartbeats 3200000 in
theorem pdqsortLoopFuel_eq :
    ∀ fuel d a b limit wb wp, (b - a).toNat + 1 ≤ fuel →
      pdqsortLoopFuel fuel d a b limit wb wp = pdqsortLoop d a b limit wb wp := by
  intro fuel
  induction fuel with
  | zero =>
    intro d a b limit wb wp hf
    omega
  | succ f ihf =>
    intro d a b limit wb wp hf
    rw [pdqsortLoop]
    simp only [pdqsortLoopFuel, insertionSortC_eq, heapSortC_eq, breakPatternsC_eq,
      reverseRangeC_eq, partialInsertionSortC_eq, partitionEqualC_eq, partitionC_eq]
    by_cases h12 : b - a ≤ 12
    · rw [if_pos h12]
      simp only [dif_pos h12]
    · rw [if_neg h12]
      simp only [dif_neg h12]
      by_cases hl0 : limit = 0
      · rw [if_pos hl0, if_pos hl0]
      · rw [if_neg hl0, if_neg hl0]
        rcases hA : (if !wb then (breakPatternsF d a b, limit - 1) else (d, limit)) with ⟨d2, limit2⟩
        dsimp only
        rcases hB : choosePivotF d2 a b with ⟨pivot0, hint0⟩
        dsimp only
        rcases hC : (if hint0 = SortedHint.decreasing
            then (reverseRangeAB d2 a b, (b - 1) - (pivot0 - a), SortedHint.increasing)
            else (d2, pivot0, hint0)) with ⟨d3, pivot, hint⟩
        dsimp only
        rcases hD : (if wb ∧ wp ∧ hint = SortedHint.increasing
            then partialInsertionSortF d3 a b
            else (d3, false)) with ⟨d4, sorted⟩
        dsimp only
        by_cases hs : sorted = true
        · rw [if_pos hs, if_pos hs]
        · rw [if_neg hs, if_neg hs]
          by_cases hq : 0 < a ∧ ¬ dLess d4 (a - 1) pivot = true
          · rw [if_pos hq, if_pos hq]
            rcases hpe : partitionEqualF d4 a b pivot with ⟨d5, mid⟩
            dsimp only
            have hb := partitionEqualF_bounds d4 a b pivot (by omega)
            rw [hpe] at hb
            replace hb : a + 1 ≤ mid ∧ mid ≤ b + 1 := hb
            exact ihf d5 mid b limit2 wb wp (by omega)
          · rw [if_neg hq, if_neg hq]
            rcases hpt : partitionF d4 a b pivot with ⟨d5, mid, ap⟩
            dsimp only
            have hb := partitionF_bounds d4 a b pivot (by omega)
            rw [hpt] at hb
            replace hb : a ≤ mid ∧ mid ≤ b - 1 := hb
            by_cases hlt : mid - a < b - mid
            · rw [if_pos hlt, if_pos hlt, pdqsortF,
                ihf d5 a mid limit2 true true (by omega)]
              exact ihf _ (mid + 1) b limit2 _ ap (by omega)
            · rw [if_neg hlt, if_neg hlt, pdqsortF,
                ihf d5 (mid + 1) b limit2 true true (by omega)]
              exact ihf _ a mid limit2 _ ap (by omega)

theorem tie13_sorted_eval :
    createFormatterData tie13 = pdqsortLoopFuel 14 (collectFields 0 tie13) 0 13 4 true true := by
  rw [createFormatterData, sortSliceGo, pdqsortF]
  norm_num [show (collectFields 0 tie13).length = 13 from rfl, Nat.log2]
  exact (pdqsortLoopFuel_eq 14 _ 0 13 4 true true (by decide)).symm

theorem abc_sorted_eval :
    createFormatterData fieldsABC = pdqsortLoopFuel 4 (collectFields 0 fieldsABC) 0 3 2 true true := by
  rw [createFormatterData, sortSliceGo, pdqsortF]
  norm_num [show (collectFields 0 fieldsABC).length = 3 from rfl, Nat.log2]
  exact (pdqsortLoopFuel_eq 4 _ 0 3 2 true true (by decide)).symm


/-- Counterexample to the declaration-position-stable-sort part of C6:
`sort.Slice` is Go's pdqsort, which is not stable. For 13 fields declared
with orders `2, 1 (eleven times), 0`, the resolved field order is
`F12, F6, F2, F3, F4, F5, F7, F8, F9, F10, F11, F1, F0`: the eleven
fields tied at order 1 do not keep their declaration order (a stable sort
would yield `F12, F1, F2, ..., F11, F0`). -/
theorem createFormatterData_ties_reordered :
    (createFormatterData tie13).map (fun f => f.index) =
      [12, 6, 2, 3, 4, 5, 7, 8, 9, 10, 11, 1, 0] ∧
    (collectFields 0 tie13).map (fun f => f.index) =
      [0, 1, 2, 3, 4, 5, 6, 7, 8, 9, 10, 11, 12] ∧
    [12, 6, 2, 3, 4, 5, 7, 8, 9, 10, 11, 1, 0] ≠
      [12, 1, 2, 3, 4, 5, 6, 7, 8, 9, 10, 11, 0] := by
  refine ⟨?_, by decide, by decide⟩
  rw [tie13_sorted_eval]
  decide

/-- C6 (amended): `createFormatterData` sorts the non-skipped fields by
declared order with `sort.Slice` (pdqsort), which is not
declaration-position stable across ties; the resulting order is
nondecreasing in the declared order and a permutation of the collected
fields, and on the spec's example `A(order=2), B(order=1), C(order=0)`
the wire order is `C, B, A`. -/
theorem createFormatterData_order :
    (createFormatterData fieldsABC).map (fun f => f.name) = ["C", "B", "A"] ∧
    List.Pairwise (fun f g => f.order ≤ g.order) (createFormatterData tie13) ∧
    List.Perm ((createFormatterData tie13).map (fun f => f.index))
      ((collectFields 0 tie13).map (fun f => f.index)) := by
  refine ⟨?_, ?_, ?_⟩
  · rw [abc_sorted_eval]
    decide
  · rw [tie13_sorted_eval]
    decide
  · rw [tie13_sorted_eval]
    decide

end MemoryPack
